import Mathlib

/-!
# Verification of the GUI.for.SingBox web bridge

A shallow embedding of the event-bus / session-store / core-gateway
subsystem of the repository, together with theorems settling the frozen
claims about it.

Source files embedded here:
* `pkg/eventbus` (bus registry, client queueing) — the `Bus.Emit`,
  `Bus.Subscribe`, `Bus.Unsubscribe`, `Bus.removeClient`, `Bus.On`,
  `Bus.emitFromClient` operations and `Client.queue`;
* the main server file — `Server.validateToken`, `handleCoreProxy`,
  `copyHeaders`, `hopHeaders`, `isLoopbackHost`;
* `frontend/src/bridge/events.ts` — the browser-side multiplexer's
  `socket.onopen` handler and `flushSubscriptions`.

Go maps keyed by strings or pointers are embedded as association lists;
Go `time.Time` values are embedded as natural numbers; goroutine-level
interleaving is linearised into an operation trace (each bus method runs
under the registry mutex in the source, so methods are atomic steps).
-/

set_option autoImplicit false

namespace GuiForSingBox

/-! ## Association lists (the embedding of Go maps)

`lookupA`/`updateA`/`eraseKeyA` model `m[k]`, `m[k] = v` and
`delete(m, k)` on a Go map.  A Go map holds at most one entry per key;
the list-level operations below agree with map semantics on every list
(lookup finds the first entry, update replaces the first entry, erase
removes every entry with the key). -/

section AssocList

variable {α β : Type} [DecidableEq α]

def lookupA : List (α × β) → α → Option β
  | [], _ => none
  | (a, b) :: t, k => if a = k then some b else lookupA t k

def updateA : List (α × β) → α → β → List (α × β)
  | [], k, v => [(k, v)]
  | (a, b) :: t, k, v => if a = k then (k, v) :: t else (a, b) :: updateA t k v

def eraseKeyA (l : List (α × β)) (k : α) : List (α × β) :=
  l.filter (fun p => !decide (p.1 = k))

@[simp] theorem lookupA_nil (k : α) : lookupA ([] : List (α × β)) k = none := rfl

@[simp] theorem lookupA_cons (a : α) (b : β) (t : List (α × β)) (k : α) :
    lookupA ((a, b) :: t) k = if a = k then some b else lookupA t k := rfl

@[simp] theorem lookupA_updateA_self (l : List (α × β)) (k : α) (v : β) :
    lookupA (updateA l k v) k = some v := by
  induction l with
  | nil => simp [updateA]
  | cons p t ih =>
    obtain ⟨a, b⟩ := p
    by_cases hak : a = k <;> simp [updateA, hak, ih]

theorem lookupA_updateA_ne (l : List (α × β)) (k k' : α) (v : β) (h : k' ≠ k) :
    lookupA (updateA l k v) k' = lookupA l k' := by
  induction l with
  | nil => simp [updateA, lookupA, Ne.symm h]
  | cons p t ih =>
    obtain ⟨a, b⟩ := p
    by_cases hak : a = k
    · subst hak
      simp [updateA, lookupA, Ne.symm h]
    · simp only [updateA, if_neg hak, lookupA_cons]
      by_cases hak' : a = k' <;> simp [hak', ih]

theorem updateA_self_of_lookupA (l : List (α × β)) (k : α) (v : β)
    (h : lookupA l k = some v) : updateA l k v = l := by
  induction l with
  | nil => simp [lookupA] at h
  | cons p t ih =>
    obtain ⟨a, b⟩ := p
    by_cases hak : a = k
    · subst hak
      simp [lookupA] at h
      simp [updateA, h]
    · simp [lookupA, hak] at h
      simp [updateA, hak, ih h]

@[simp] theorem lookupA_eraseKeyA_self (l : List (α × β)) (k : α) :
    lookupA (eraseKeyA l k) k = none := by
  induction l with
  | nil => rfl
  | cons p t ih =>
    obtain ⟨a, b⟩ := p
    simp only [eraseKeyA, List.filter_cons] at ih ⊢
    by_cases hak : a = k
    · simp [hak, ih]
    · simp [hak, lookupA, ih]

theorem lookupA_eraseKeyA_ne (l : List (α × β)) (k k' : α) (h : k' ≠ k) :
    lookupA (eraseKeyA l k) k' = lookupA l k' := by
  induction l with
  | nil => rfl
  | cons p t ih =>
    obtain ⟨a, b⟩ := p
    simp only [eraseKeyA, List.filter_cons] at ih ⊢
    by_cases hak : a = k
    · subst hak
      simp [Ne.symm h, lookupA, ih]
    · by_cases hak' : a = k' <;> simp [hak, hak', lookupA, ih, h]

theorem mem_keys_of_lookupA {l : List (α × β)} {k : α} {v : β}
    (h : lookupA l k = some v) : k ∈ l.map Prod.fst := by
  induction l with
  | nil => simp [lookupA] at h
  | cons p t ih =>
    obtain ⟨a, b⟩ := p
    by_cases hak : a = k
    · subst hak; simp
    · simp [lookupA, hak] at h
      simp [ih h]

theorem lookupA_eq_none_of_not_mem_keys {l : List (α × β)} {k : α}
    (h : k ∉ l.map Prod.fst) : lookupA l k = none := by
  induction l with
  | nil => rfl
  | cons p t ih =>
    obtain ⟨a, b⟩ := p
    simp only [List.map_cons, List.mem_cons] at h
    push_neg at h
    have hak : a ≠ k := fun hh => h.1 hh.symm
    simp [lookupA, hak, ih h.2]

end AssocList

/-! ## SessionStore (`Server.validateToken`)

The source keeps `sessions map[string]time.Time` and a TTL; `validateToken`
is, verbatim:

```go
func (s *Server) validateToken(token string) bool {
    s.mu.Lock()
    defer s.mu.Unlock()
    expiry, ok := s.sessions[token]
    if !ok {
        return false
    }
    if time.Now().After(expiry) {
        delete(s.sessions, token)
        return false
    }
    return true
}
```

Instants are embedded as `Nat`; `time.Now().After(expiry)` is the strict
comparison `expiry < now`.  The function returns the boolean
result together with the session map after the call (the side effect). -/

def validateToken (sessions : List (String × Nat)) (token : String) (now : Nat) :
    Bool × List (String × Nat) :=
  match lookupA sessions token with
  | none => (false, sessions)
  | some expiry =>
    if expiry < now then (false, eraseKeyA sessions token)
    else (true, sessions)

/-- C3, counterexample to the claim as stated: with the entry `("t", 5)` in
the store and `now = 5`, the token is present but `now < expiry` fails, so
the claim predicts `false`; the code compares with the strict `time.Now().After`
and returns `true` at the boundary instant `now = expiry`. -/
theorem validateToken_now_lt_counterexample :
    (validateToken [("t", 5)] "t" 5).1 = true ∧
      lookupA [(("t" : String), (5 : Nat))] "t" = some 5 ∧ ¬ (5 < 5) := by
  refine ⟨by decide, by decide, by decide⟩

/-- C3 (amended): `validateToken t` returns `true` iff `t` is present in the
session store and `now ≤ expiry` (the expiry instant itself still validates,
since the source uses the strict `time.Now().After(expiry)`); when it finds
`t` present but past expiry it returns `false` and deletes `t`'s entry, so an
immediately repeated validation finds `t` absent; entries for tokens other
than `t` are unchanged by the call. -/
theorem validateToken_spec (sessions : List (String × Nat)) (t : String) (now : Nat) :
    ((validateToken sessions t now).1 = true ↔
        ∃ expiry, lookupA sessions t = some expiry ∧ now ≤ expiry) ∧
    (∀ expiry, lookupA sessions t = some expiry → expiry < now →
        (validateToken sessions t now).1 = false ∧
        lookupA (validateToken sessions t now).2 t = none ∧
        (validateToken (validateToken sessions t now).2 t now).1 = false) ∧
    (∀ t', t' ≠ t →
        lookupA (validateToken sessions t now).2 t' = lookupA sessions t') := by
  refine ⟨?_, ?_, ?_⟩
  · cases h : lookupA sessions t with
    | none => simp [validateToken, h]
    | some expiry =>
      by_cases hlt : expiry < now
      · simp [validateToken, h, hlt]
      · simp [validateToken, h, hlt]
        omega
  · intro expiry h hlt
    refine ⟨by simp [validateToken, h, hlt], ?_, ?_⟩
    · simp [validateToken, h, hlt]
    · simp [validateToken, h, hlt]
  · intro t' hne
    cases h : lookupA sessions t with
    | none => simp [validateToken, h]
    | some expiry =>
      by_cases hlt : expiry < now
      · simp [validateToken, h, hlt, lookupA_eraseKeyA_ne _ _ _ hne]
      · simp [validateToken, h, hlt]

/-- C3 witness: instantiates the amended theorem on the store
`[("a", 3), ("b", 10)]`, an expired token `"a"` at `now = 7`, and the
unrelated token `"b"`. -/
theorem validateToken_spec_witness :
    (validateToken [("a", 3), ("b", 10)] "a" 7).1 = false ∧
    lookupA (validateToken [("a", 3), ("b", 10)] "a" 7).2 "a" = none ∧
    (validateToken (validateToken [("a", 3), ("b", 10)] "a" 7).2 "a" 7).1 = false ∧
    lookupA (validateToken [("a", 3), ("b", 10)] "a" 7).2 "b" = lookupA [("a", 3), ("b", 10)] "b" := by
  have h := validateToken_spec [("a", 3), ("b", 10)] "a" 7
  have h2 := h.2.1 3 (by decide) (by decide)
  exact ⟨h2.1, h2.2.1, h2.2.2, h.2.2 "b" (by decide)⟩

/-! ## Header copying (`copyHeaders`, `hopHeaders`)

`http.Header` is `map[string][]string` with keys in canonical MIME form;
it is embedded as an association list from names to value lists.  The
source:

```go
var hopHeaders = []string{"Connection", "Proxy-Connection", "Keep-Alive",
    "Proxy-Authenticate", "Proxy-Authorization", "Te", "Trailer",
    "Transfer-Encoding", "Upgrade"}

func copyHeaders(dst, src http.Header) {
    for key, values := range src {
        ignore := false
        for _, hop := range hopHeaders {
            if strings.EqualFold(key, hop) { ignore = true; break }
        }
        if ignore { continue }
        for _, v := range values { dst.Add(key, v) }
    }
}
```

`strings.EqualFold` is Unicode simple case folding; on ASCII strings
(every MIME header name) it is ASCII case folding, which is what
`equalFold` below implements. -/

abbrev Headers := List (String × List String)

def asciiLower (c : Char) : Char :=
  if 'A' ≤ c ∧ c ≤ 'Z' then Char.ofNat (c.toNat + 32) else c

def equalFold (a b : String) : Bool :=
  decide (a.data.map asciiLower = b.data.map asciiLower)

def hopHeaders : List String :=
  ["Connection", "Proxy-Connection", "Keep-Alive", "Proxy-Authenticate",
   "Proxy-Authorization", "Te", "Trailer", "Transfer-Encoding", "Upgrade"]

/-- The inner loop of `copyHeaders` setting `ignore`. -/
def isHopHeader (k : String) : Bool :=
  hopHeaders.any (fun hop => equalFold k hop)

/-- `http.Header.Add`: append the value to the slice stored under the key
(keys are already canonical, so Go's canonicalisation is the identity). -/
def headerAdd (h : Headers) (k : String) (v : String) : Headers :=
  match lookupA h k with
  | some vs => updateA h k (vs ++ [v])
  | none => h ++ [(k, [v])]

def copyHeaders (dst src : Headers) : Headers :=
  src.foldl
    (fun d kv =>
      if isHopHeader kv.1 then d
      else kv.2.foldl (fun d2 v => headerAdd d2 kv.1 v) d)
    dst

/-- The values stored under a header name (`[]` when absent). -/
def valuesOf (h : Headers) (k : String) : List String :=
  (lookupA h k).getD []

/-- The blocked-name predicate exactly as the claim words it: the six
named hop-by-hop headers, or any name beginning with `Proxy-`, compared
case-insensitively. -/
def claimHopBlocked (k : String) : Bool :=
  (["Connection", "Keep-Alive", "TE", "Trailer", "Transfer-Encoding", "Upgrade"].any
      (fun n => equalFold k n)) ||
    decide ((k.data.map asciiLower).take 6 = "proxy-".data)

theorem lookupA_append_left {α β : Type} [DecidableEq α]
    (l₁ l₂ : List (α × β)) (k : α) :
    lookupA (l₁ ++ l₂) k =
      match lookupA l₁ k with
      | some v => some v
      | none => lookupA l₂ k := by
  induction l₁ with
  | nil => simp [lookupA]
  | cons p t ih =>
    obtain ⟨a, b⟩ := p
    by_cases hak : a = k <;> simp [lookupA, hak, ih]

theorem lookupA_headerAdd_ne (d : Headers) (k k' v : String) (h : k ≠ k') :
    lookupA (headerAdd d k' v) k = lookupA d k := by
  unfold headerAdd
  cases hl : lookupA d k' with
  | some vs => exact lookupA_updateA_ne d k' k (vs ++ [v]) h
  | none =>
    rw [lookupA_append_left]
    cases hk : lookupA d k with
    | some w => rfl
    | none => simp [lookupA, Ne.symm h]

theorem valuesOf_headerAdd_self (d : Headers) (k v : String) :
    valuesOf (headerAdd d k v) k = valuesOf d k ++ [v] := by
  unfold headerAdd valuesOf
  cases hl : lookupA d k with
  | some vs => simp [hl]
  | none =>
    rw [lookupA_append_left, hl]
    simp [lookupA]

theorem valuesOf_headerAdd_fold_self (vs : List String) (d : Headers) (k : String) :
    valuesOf (vs.foldl (fun d2 v => headerAdd d2 k v) d) k = valuesOf d k ++ vs := by
  induction vs generalizing d with
  | nil => simp
  | cons v t ih =>
    simp only [List.foldl_cons]
    rw [ih, valuesOf_headerAdd_self, List.append_assoc]
    rfl

theorem lookupA_headerAdd_fold_ne (vs : List String) (d : Headers) (k k' : String)
    (h : k ≠ k') :
    lookupA (vs.foldl (fun d2 v => headerAdd d2 k' v) d) k = lookupA d k := by
  induction vs generalizing d with
  | nil => rfl
  | cons v t ih =>
    simp only [List.foldl_cons]
    rw [ih, lookupA_headerAdd_ne d k k' v h]

theorem lookupA_copyHeaders_not_mem (src : Headers) (d : Headers) (k : String)
    (h : k ∉ src.map Prod.fst) :
    lookupA (copyHeaders d src) k = lookupA d k := by
  induction src generalizing d with
  | nil => rfl
  | cons e rest ih =>
    obtain ⟨k'', vs''⟩ := e
    simp only [List.map_cons, List.mem_cons, not_or] at h
    show lookupA (copyHeaders (if isHopHeader k'' then d
        else vs''.foldl (fun d2 v => headerAdd d2 k'' v) d) rest) k = lookupA d k
    rw [ih _ h.2]
    by_cases hh : isHopHeader k''
    · simp [hh]
    · simp only [hh, if_false]
      exact lookupA_headerAdd_fold_ne vs'' d k k'' h.1

/-- C5 (amended): the headers never copied (in either direction — both the
request and the response copy go through `copyHeaders`) are exactly the nine
names of `hopHeaders`, compared case-insensitively: `Connection`,
`Proxy-Connection`, `Keep-Alive`, `Proxy-Authenticate`, `Proxy-Authorization`,
`TE`, `Trailer`, `Transfer-Encoding` and `Upgrade`.  Every other header —
including other names beginning with `Proxy-` — is copied with all of its
values appended in order. -/
theorem copyHeaders_spec (dst src : Headers)
    (hnodup : (src.map Prod.fst).Nodup) :
    ∀ k vs, (k, vs) ∈ src →
      (isHopHeader k = true → lookupA (copyHeaders dst src) k = lookupA dst k) ∧
      (isHopHeader k = false →
        valuesOf (copyHeaders dst src) k = valuesOf dst k ++ vs) := by
  induction src generalizing dst with
  | nil => intro k vs h; cases h
  | cons e rest ih =>
    obtain ⟨k'', vs''⟩ := e
    simp only [List.map_cons, List.nodup_cons] at hnodup
    intro k vs hmem
    rcases List.mem_cons.mp hmem with heq | hrest
    · obtain ⟨hk, hvs⟩ := Prod.mk.injEq .. ▸ heq
      subst hk; subst hvs
      have hknotin : k ∉ rest.map Prod.fst := hnodup.1
      constructor
      · intro hhop
        show lookupA (copyHeaders (if isHopHeader k then dst
            else vs.foldl (fun d2 v => headerAdd d2 k v) dst) rest) k = lookupA dst k
        rw [lookupA_copyHeaders_not_mem rest _ k hknotin, hhop, if_pos rfl]
      · intro hhop
        show valuesOf (copyHeaders (if isHopHeader k then dst
            else vs.foldl (fun d2 v => headerAdd d2 k v) dst) rest) k
          = valuesOf dst k ++ vs
        unfold valuesOf
        rw [lookupA_copyHeaders_not_mem rest _ k hknotin, hhop, if_neg (by simp)]
        exact valuesOf_headerAdd_fold_self vs dst k
    · have hkne : k'' ≠ k := by
        intro hkk
        exact hnodup.1 (hkk ▸ (List.mem_map_of_mem Prod.fst hrest))
      have step_eq : ∀ (kk : String),
          kk = k →
          lookupA (if isHopHeader k'' then dst
            else vs''.foldl (fun d2 v => headerAdd d2 k'' v) dst) kk = lookupA dst kk := by
        intro kk hkk
        subst hkk
        by_cases hh : isHopHeader k''
        · simp [hh]
        · simp only [hh, if_false]
          exact lookupA_headerAdd_fold_ne vs'' dst kk k'' (Ne.symm hkne)
      have ih' := ih (if isHopHeader k'' then dst
          else vs''.foldl (fun d2 v => headerAdd d2 k'' v) dst) hnodup.2 k vs hrest
      constructor
      · intro hhop
        have := ih'.1 hhop
        show lookupA (copyHeaders (if isHopHeader k'' then dst
            else vs''.foldl (fun d2 v => headerAdd d2 k'' v) dst) rest) k = lookupA dst k
        rw [this, step_eq k rfl]
      · intro hhop
        have := ih'.2 hhop
        show valuesOf (copyHeaders (if isHopHeader k'' then dst
            else vs''.foldl (fun d2 v => headerAdd d2 k'' v) dst) rest) k
          = valuesOf dst k ++ vs
        rw [this]
        unfold valuesOf
        rw [step_eq k rfl]

/-- C5 witness: one hop-by-hop header is skipped, one ordinary header is
copied with both of its values, instantiating `copyHeaders_spec`. -/
theorem copyHeaders_spec_witness :
    lookupA (copyHeaders [("X-K", ["1"])] [("Connection", ["close"]), ("Accept", ["a", "b"])])
        "Connection" = lookupA [("X-K", ["1"])] "Connection" ∧
    valuesOf (copyHeaders [("X-K", ["1"])] [("Connection", ["close"]), ("Accept", ["a", "b"])])
        "Accept" = valuesOf [("X-K", ["1"])] "Accept" ++ ["a", "b"] := by
  have h := copyHeaders_spec [("X-K", ["1"])]
    [("Connection", ["close"]), ("Accept", ["a", "b"])] (by decide)
  exact ⟨(h "Connection" ["close"] (by decide)).1 (by decide),
         (h "Accept" ["a", "b"] (by decide)).2 (by decide)⟩

/-- C5, counterexample to the claim as stated: `Proxy-Foo` begins with
`Proxy-`, so the claim says it is never copied; the source only blocks the
nine names listed in `hopHeaders`, and `copyHeaders` does copy `Proxy-Foo`. -/
theorem copyHeaders_proxy_wildcard_counterexample :
    claimHopBlocked "Proxy-Foo" = true ∧
      copyHeaders [] [("Proxy-Foo", ["x"])] = [("Proxy-Foo", ["x"])] := by
  constructor
  · decide
  · decide

/-! ## Query values (`url.Values`)

`url.Values` is `map[string][]string`; `Get` returns the first value of
the key (or `""`), `Del` removes the key. -/

abbrev Values := List (String × List String)

def valuesGet (q : Values) (k : String) : String :=
  match lookupA q k with
  | some (v :: _) => v
  | _ => ""

def valuesDel (q : Values) (k : String) : Values := eraseKeyA q k

/-! ## IP parsing and the loopback check (`isLoopbackHost`)

The source guard is

```go
func isLoopbackHost(host string) bool {
    if host == "localhost" { return true }
    ip := net.ParseIP(host)
    return ip != nil && ip.IsLoopback()
}
```

`net.ParseIP` (Go 1.24) is embedded below: dispatch on the first `.` or
`:`; dotted-quad IPv4 with 1–3 digit fields, values ≤ 255 and no leading
zeros; RFC-4291 IPv6 with at most one `::`, optional embedded IPv4 in the
last 32 bits, and no zone suffix.  IPs are byte lists of length 16
(IPv4 stored in the `::ffff:0:0/96` mapped form, as `net.IP` does);
`goTo4` and `goIsLoopback` are `IP.To4` and `IP.IsLoopback`. -/

/-- Go `dtoi`: decimal prefix value, digits consumed, ok
(with the `big = 0xFFFFFF` overflow cutoff). -/
def dtoi : List Char → Nat → Nat → Nat × Nat × Bool
  | [], n, i => if i = 0 then (0, 0, false) else (n, i, true)
  | c :: rest, n, i =>
    if '0' ≤ c ∧ c ≤ '9' then
      let n' := n * 10 + (c.toNat - '0'.toNat)
      if 0xFFFFFF ≤ n' then (0xFFFFFF, i, false)
      else dtoi rest n' (i + 1)
    else if i = 0 then (0, 0, false) else (n, i, true)

/-- Go `xtoi`: hexadecimal prefix value, digits consumed, ok. -/
def xtoi : List Char → Nat → Nat → Nat × Nat × Bool
  | [], n, i => if i = 0 then (0, 0, false) else (n, i, true)
  | c :: rest, n, i =>
    if '0' ≤ c ∧ c ≤ '9' then
      let n' := n * 16 + (c.toNat - '0'.toNat)
      if 0xFFFFFF ≤ n' then (0, i, false) else xtoi rest n' (i + 1)
    else if 'a' ≤ c ∧ c ≤ 'f' then
      let n' := n * 16 + (c.toNat - 'a'.toNat) + 10
      if 0xFFFFFF ≤ n' then (0, i, false) else xtoi rest n' (i + 1)
    else if 'A' ≤ c ∧ c ≤ 'F' then
      let n' := n * 16 + (c.toNat - 'A'.toNat) + 10
      if 0xFFFFFF ≤ n' then (0, i, false) else xtoi rest n' (i + 1)
    else if i = 0 then (0, 0, false) else (n, i, true)

/-- The four dotted-quad fields of `parseIPv4`: each field is a decimal
run with value ≤ 255 and no leading zero, fields after the first are
preceded by `.`, and the string must be consumed exactly. -/
def parseV4Fields : List Char → Nat → Bool → Option (List Nat)
  | s, 0, _ => if s = [] then some [] else none
  | s, k + 1, first =>
    let s1? : Option (List Char) :=
      if first then some s
      else
        match s with
        | '.' :: r => some r
        | _ => none
    match s1? with
    | none => none
    | some s1 =>
      match dtoi s1 0 0 with
      | (n, c, ok) =>
        if ok = false ∨ 255 < n then none
        else if 1 < c ∧ s1.head? = some '0' then none
        else
          match parseV4Fields (s1.drop c) k false with
          | none => none
          | some rest => some (n :: rest)

def parseIPv4 (s : List Char) : Option (List Nat) := parseV4Fields s 4 true

/-- The IPv4-mapped IPv6 prefix `::ffff:0:0/96` (Go `v4InV6Prefix`). -/
def v4InV6Prefix : List Nat := [0, 0, 0, 0, 0, 0, 0, 0, 0, 0, 0xff, 0xff]

/-- The group loop of Go `parseIPv6`.  `acc` holds the bytes produced so
far, `ell` the byte position of the `::` if one was seen.  Returns the
bytes, the unconsumed remainder, and the ellipsis position.  The fuel is
an upper bound on iterations (each one adds 2 or 4 of the 16 bytes). -/
def parseIPv6Loop : Nat → List Char → List Nat → Option Nat →
    Option (List Nat × List Char × Option Nat)
  | 0, _, _, _ => none
  | fuel + 1, s, acc, ell =>
    if 16 ≤ acc.length then some (acc, s, ell)
    else
      match xtoi s 0 0 with
      | (n, c, ok) =>
        if ok = false ∨ 0xFFFF < n then none
        else if (s.drop c).head? = some '.' then
          -- trailing embedded IPv4
          if ell = none ∧ acc.length ≠ 12 then none
          else if 16 < acc.length + 4 then none
          else
            match parseIPv4 s with
            | none => none
            | some p4 => some (acc ++ p4, [], ell)
        else
          let acc2 := acc ++ [n / 256, n % 256]
          let s2 := s.drop c
          if s2 = [] then some (acc2, [], ell)
          else if s2.head? ≠ some ':' ∨ s2.length = 1 then none
          else
            let s3 := s2.drop 1
            if s3.head? = some ':' then
              if ell ≠ none then none
              else
                let s4 := s3.drop 1
                if s4 = [] then some (acc2, [], some acc2.length)
                else parseIPv6Loop fuel s4 acc2 (some acc2.length)
            else parseIPv6Loop fuel s3 acc2 ell

/-- Post-loop part of `parseIPv6`: the string must be consumed; a short
result is padded with zeros at the ellipsis; a full result must not also
contain an ellipsis. -/
def finishV6 : Option (List Nat × List Char × Option Nat) → Option (List Nat)
  | none => none
  | some (acc, s, ell) =>
    if s ≠ [] then none
    else if acc.length < 16 then
      match ell with
      | none => none
      | some e => some (acc.take e ++ List.replicate (16 - acc.length) 0 ++ acc.drop e)
    else
      match ell with
      | some _ => none
      | none => some acc

def parseIPv6 (s0 : List Char) : Option (List Nat) :=
  if s0.contains '%' then none  -- zoned addresses are rejected by net.ParseIP
  else
    match s0 with
    | ':' :: ':' :: rest =>
      if rest = [] then some (List.replicate 16 0)
      else finishV6 (parseIPv6Loop 9 rest [] (some 0))
    | _ => finishV6 (parseIPv6Loop 9 s0 [] none)

/-- `net.ParseIP`: scan for the first `.` or `:` to pick the family. -/
def ipDispatch : List Char → List Char → Option (List Nat)
  | [], _ => none
  | '.' :: _, orig => (parseIPv4 orig).map (fun p4 => v4InV6Prefix ++ p4)
  | ':' :: _, orig => parseIPv6 orig
  | _ :: rest, orig => ipDispatch rest orig

def parseIPGo (s : String) : Option (List Nat) := ipDispatch s.data s.data

/-- `IP.To4`: a 4-byte address, or the last 4 bytes of a mapped address. -/
def goTo4 (ip : List Nat) : Option (List Nat) :=
  if ip.length = 4 then some ip
  else if ip.length = 16 ∧ ip.take 12 = v4InV6Prefix then some (ip.drop 12)
  else none

def ipv6Loopback : List Nat := [0, 0, 0, 0, 0, 0, 0, 0, 0, 0, 0, 0, 0, 0, 0, 1]

/-- `IP.IsLoopback`: first byte 127 for (possibly mapped) IPv4, else
equality with `::1`. -/
def goIsLoopback (ip : List Nat) : Bool :=
  match goTo4 ip with
  | some p4 => decide (p4.headD 0 = 127)
  | none => decide (ip = ipv6Loopback)

def isLoopbackHost (host : String) : Bool :=
  if host = "localhost" then true
  else
    match parseIPGo host with
    | some ip => goIsLoopback ip
    | none => false

theorem isLoopbackHost_values :
    isLoopbackHost "localhost" = true ∧
    isLoopbackHost "127.0.0.1" = true ∧
    isLoopbackHost "127.255.0.3" = true ∧
    isLoopbackHost "::1" = true ∧
    isLoopbackHost "0:0:0:0:0:0:0:1" = true ∧
    isLoopbackHost "::ffff:127.0.0.1" = true ∧
    isLoopbackHost "128.0.0.1" = false ∧
    isLoopbackHost "example.com" = false ∧
    isLoopbackHost "10.0.0.1" = false ∧
    isLoopbackHost "::2" = false ∧
    isLoopbackHost "2001:db8::1" = false := by
  refine ⟨rfl, ?_, ?_, ?_, ?_, ?_, ?_, ?_, ?_, ?_, ?_⟩ <;> decide

theorem goTo4_ipv6Loopback : goTo4 ipv6Loopback = none := by decide

/-- The claim-side characterisation of a loopback IP:
`127.0.0.0/8` (first byte of the 4-byte form is 127) or `::1`. -/
theorem goIsLoopback_iff (ip : List Nat) :
    goIsLoopback ip = true ↔
      ((∃ rest, goTo4 ip = some (127 :: rest)) ∨ ip = ipv6Loopback) := by
  unfold goIsLoopback
  cases h4 : goTo4 ip with
  | some p4 =>
    simp only [decide_eq_true_eq]
    constructor
    · intro hh
      cases p4 with
      | nil => simp at hh
      | cons a t =>
        have ha : a = 127 := by simpa using hh
        exact Or.inl ⟨t, by rw [ha]⟩
    · rintro (⟨rest, hrest⟩ | hh)
      · injection hrest with hrest
        rw [hrest]
        rfl
      · rw [hh, goTo4_ipv6Loopback] at h4
        cases h4
  | none =>
    simp only [decide_eq_true_eq]
    constructor
    · exact fun hh => Or.inr hh
    · rintro (⟨rest, hrest⟩ | hh)
      · cases hrest
      · exact hh

theorem isLoopbackHost_iff (h : String) :
    isLoopbackHost h = true ↔
      (h = "localhost" ∨ ∃ ip, parseIPGo h = some ip ∧
        ((∃ rest, goTo4 ip = some (127 :: rest)) ∨ ip = ipv6Loopback)) := by
  unfold isLoopbackHost
  by_cases hl : h = "localhost"
  · simp [hl]
  · simp only [if_neg hl]
    cases hp : parseIPGo h with
    | none => simp [hl]
    | some ip =>
      simp only [hl, false_or]
      constructor
      · intro hh
        exact ⟨ip, rfl, (goIsLoopback_iff ip).mp hh⟩
      · rintro ⟨ip', hip', hch⟩
        injection hip' with hip'
        exact (goIsLoopback_iff ip).mpr (hip' ▸ hch)

/-! ## The core gateway (`handleCoreProxy`)

The handler's decision logic is embedded as a function from the request
data to an outcome.  `url.Parse` is standard-library code taken as a
parameter `parse`; the claims only condition on whether it succeeds and
on the hostname of its result.  `ProxyOutcome.clientError s` is an
`http.Error` reply with status `s` issued before any outbound request is
built or dialed; `ProxyOutcome.forward` is the unique path on which the
request is handed to `proxyCoreWebsocket`/`proxyCoreHTTP`, carrying the
resolved target (base URL, rewritten path, stripped query) and the
upstream bearer credential. -/

structure GoURL where
  hostname : String
  deriving DecidableEq

structure CoreRequest where
  headerCoreBase : String
  headerCoreBearer : String
  pathParam : String
  query : Values
  deriving DecidableEq

inductive ProxyOutcome where
  | clientError (status : Nat)
  | forward (base : GoURL) (path : String) (query : Values) (bearer : String)
  deriving DecidableEq

/-- `coreBase := r.Header.Get("X-Core-Base")`, falling back to the
`coreBase` query parameter when empty. -/
def coreBaseOf (r : CoreRequest) : String :=
  if r.headerCoreBase = "" then valuesGet r.query "coreBase" else r.headerCoreBase

/-- `bearer := r.Header.Get("X-Core-Bearer")`, falling back to the
`coreBearer` query parameter when empty. -/
def bearerOf (r : CoreRequest) : String :=
  if r.headerCoreBearer = "" then valuesGet r.query "coreBearer" else r.headerCoreBearer

/-- `query.Del("coreBase"); query.Del("coreBearer"); query.Del("token")`. -/
def strippedQuery (q : Values) : Values :=
  valuesDel (valuesDel (valuesDel q "coreBase") "coreBearer") "token"

def goHasPrefix (s pre : String) : Bool := pre.data.isPrefixOf s.data

/-- `if !strings.HasPrefix(pathParam, "/") { pathParam = "/" + pathParam }`. -/
def normPath (p : String) : String :=
  if goHasPrefix p "/" then p else "/" ++ p

def handleCoreProxy (parse : String → Option GoURL) (r : CoreRequest) : ProxyOutcome :=
  let coreBase := coreBaseOf r
  if coreBase = "" then .clientError 400      -- "missing core base"
  else
    match parse coreBase with
    | none => .clientError 400                -- "invalid core base"
    | some baseURL =>
      if isLoopbackHost baseURL.hostname = false then
        .clientError 403                      -- "core base must be loopback"
      else
        .forward baseURL (normPath r.pathParam) (strippedQuery r.query) (bearerOf r)

/-- C1: for a request with a declared base URL, a parse failure or a
hostname that is neither `localhost` nor a loopback IP (`127.0.0.0/8` or
`::1`, characterised by the last conjunct) is rejected with a client-error
status (400 or 403) without reaching the forwarding path, and a loopback
hostname proceeds to forwarding. -/
theorem handleCoreProxy_ssrf_guard (parse : String → Option GoURL) (r : CoreRequest)
    (hdecl : coreBaseOf r ≠ "") :
    (parse (coreBaseOf r) = none →
      handleCoreProxy parse r = ProxyOutcome.clientError 400) ∧
    (∀ u, parse (coreBaseOf r) = some u → isLoopbackHost u.hostname = false →
      handleCoreProxy parse r = ProxyOutcome.clientError 403) ∧
    (∀ u, parse (coreBaseOf r) = some u → isLoopbackHost u.hostname = true →
      handleCoreProxy parse r =
        ProxyOutcome.forward u (normPath r.pathParam) (strippedQuery r.query) (bearerOf r)) ∧
    (∀ h, isLoopbackHost h = true ↔
      (h = "localhost" ∨ ∃ ip, parseIPGo h = some ip ∧
        ((∃ rest, goTo4 ip = some (127 :: rest)) ∨ ip = ipv6Loopback))) := by
  refine ⟨?_, ?_, ?_, isLoopbackHost_iff⟩
  · intro hp
    simp [handleCoreProxy, hdecl, hp]
  · intro u hp hlb
    simp [handleCoreProxy, hdecl, hp, hlb]
  · intro u hp hlb
    simp [handleCoreProxy, hdecl, hp, hlb]

/-- C1 witness: a declared base `http://127.0.0.1:20123` proceeds to
forwarding, and a declared base `http://example.com:1234` is rejected with
status 403, instantiating `handleCoreProxy_ssrf_guard` on a concrete parse
function and concrete requests. -/
theorem handleCoreProxy_ssrf_guard_witness :
    handleCoreProxy
        (fun s => if s = "http://127.0.0.1:20123" then some ⟨"127.0.0.1"⟩
                  else some ⟨"example.com"⟩)
        ⟨"http://127.0.0.1:20123", "", "/version", [("token", ["abc"])]⟩ =
      ProxyOutcome.forward ⟨"127.0.0.1"⟩ "/version" [] "" ∧
    handleCoreProxy
        (fun s => if s = "http://127.0.0.1:20123" then some ⟨"127.0.0.1"⟩
                  else some ⟨"example.com"⟩)
        ⟨"http://example.com:1234", "", "/version", []⟩ =
      ProxyOutcome.clientError 403 := by
  constructor
  · exact (handleCoreProxy_ssrf_guard _ _ (by decide)).2.2.1 ⟨"127.0.0.1"⟩ (by decide)
      (by decide)
  · exact (handleCoreProxy_ssrf_guard _ _ (by decide)).2.1 ⟨"example.com"⟩ (by decide)
      (by decide)

/-- C4: on the forwarding path the upstream query is the inbound query
with exactly the keys `coreBase`, `coreBearer` and `token` removed; every
other key keeps all of its values.  The comparison is at the
`url.Values` level (key → value list): `query.Encode()` re-serialises
those pairs (sorted by key), so the parameter multiset — what the
upstream observes — is the faithful notion of "the query string with
exactly those keys removed". -/
theorem handleCoreProxy_strips_gateway_params (q : Values) :
    lookupA (strippedQuery q) "coreBase" = none ∧
    lookupA (strippedQuery q) "coreBearer" = none ∧
    lookupA (strippedQuery q) "token" = none ∧
    (∀ k, k ≠ "coreBase" → k ≠ "coreBearer" → k ≠ "token" →
      lookupA (strippedQuery q) k = lookupA q k) ∧
    (∀ (parse : String → Option GoURL) (r : CoreRequest) (u : GoURL),
      coreBaseOf r ≠ "" → parse (coreBaseOf r) = some u →
      isLoopbackHost u.hostname = true →
      handleCoreProxy parse r =
        ProxyOutcome.forward u (normPath r.pathParam) (strippedQuery r.query) (bearerOf r)) := by
  refine ⟨?_, ?_, ?_, ?_, ?_⟩
  · unfold strippedQuery valuesDel
    rw [lookupA_eraseKeyA_ne _ _ _ (by decide), lookupA_eraseKeyA_ne _ _ _ (by decide)]
    exact lookupA_eraseKeyA_self q "coreBase"
  · unfold strippedQuery valuesDel
    rw [lookupA_eraseKeyA_ne _ _ _ (by decide)]
    exact lookupA_eraseKeyA_self _ "coreBearer"
  · exact lookupA_eraseKeyA_self _ "token"
  · intro k h1 h2 h3
    unfold strippedQuery valuesDel
    rw [lookupA_eraseKeyA_ne _ _ _ h3, lookupA_eraseKeyA_ne _ _ _ h2,
      lookupA_eraseKeyA_ne _ _ _ h1]
  · intro parse r u hdecl hp hlb
    exact (handleCoreProxy_ssrf_guard parse r hdecl).2.2.1 u hp hlb

/-- C4 witness: instantiates `handleCoreProxy_strips_gateway_params` on a
concrete query carrying all three gateway parameters plus an ordinary one,
and on a concrete loopback forward. -/
theorem handleCoreProxy_strips_gateway_params_witness :
    lookupA (strippedQuery [("coreBase", ["http://127.0.0.1:1"]), ("page", ["2"]),
        ("coreBearer", ["s"]), ("token", ["t"])]) "coreBase" = none ∧
    lookupA (strippedQuery [("coreBase", ["http://127.0.0.1:1"]), ("page", ["2"]),
        ("coreBearer", ["s"]), ("token", ["t"])]) "page" =
      lookupA [("coreBase", ["http://127.0.0.1:1"]), ("page", ["2"]),
        ("coreBearer", ["s"]), ("token", ["t"])] "page" ∧
    handleCoreProxy (fun _ => some ⟨"localhost"⟩)
        ⟨"http://localhost:9090", "", "logs", [("coreBearer", ["s"]), ("level", ["info"])]⟩ =
      ProxyOutcome.forward ⟨"localhost"⟩ "/logs" [("level", ["info"])] "s" := by
  refine ⟨(handleCoreProxy_strips_gateway_params _).1,
          (handleCoreProxy_strips_gateway_params _).2.2.2.1 "page" (by decide) (by decide)
            (by decide), ?_⟩
  have h := (handleCoreProxy_strips_gateway_params
      [("coreBearer", ["s"]), ("level", ["info"])]).2.2.2.2
      (fun _ => some ⟨"localhost"⟩)
      ⟨"http://localhost:9090", "", "logs", [("coreBearer", ["s"]), ("level", ["info"])]⟩
      ⟨"localhost"⟩ (by decide) rfl (by decide)
  exact h

/-! ## JSON serialisation (`json.Marshal` of `wsMessage`)

Event payloads are `[]any` holding JSON-serialisable values; they are
embedded as `Json` trees.  `Json.encode` follows Go's encoder: strings
are escaped with `\"`, `\\`, `\n`, `\r`, `\t`, `\u00XX` for other
control characters, the default HTML escaping of `<`, `>` and `&`, and
the U+2028/U+2029 line separators; numbers are integers printed in
decimal; object fields are emitted in the order marshalled. -/

inductive Json where
  | null
  | bool (b : Bool)
  | num (n : Int)
  | str (s : String)
  | arr (items : List Json)
  | obj (fields : List (String × Json))

def hexDigit (n : Nat) : Char :=
  if n < 10 then Char.ofNat ('0'.toNat + n) else Char.ofNat ('a'.toNat + n - 10)

def jsonEscapeChar (c : Char) : List Char :=
  if c = '"' then ['\\', '"']
  else if c = '\\' then ['\\', '\\']
  else if c = '\n' then ['\\', 'n']
  else if c = '\r' then ['\\', 'r']
  else if c = '\t' then ['\\', 't']
  else if c.toNat < 0x20 ∨ c = '<' ∨ c = '>' ∨ c = '&' then
    ['\\', 'u', '0', '0', hexDigit (c.toNat / 16), hexDigit (c.toNat % 16)]
  else if c.toNat = 0x2028 ∨ c.toNat = 0x2029 then
    ['\\', 'u', '2', '0', '2', hexDigit (c.toNat % 16)]
  else [c]

def jsonQuote (s : String) : String :=
  String.mk ('"' :: s.data.foldr (fun c acc => jsonEscapeChar c ++ acc) ['"'])

mutual

def Json.encode : Json → String
  | .null => "null"
  | .bool b => if b then "true" else "false"
  | .num n => toString n
  | .str s => jsonQuote s
  | .arr items => "[" ++ encodeItems items ++ "]"
  | .obj fields => "\x7b" ++ encodeFields fields ++ "\x7d"

def encodeItems : List Json → String
  | [] => ""
  | [x] => Json.encode x
  | x :: y :: rest => Json.encode x ++ "," ++ encodeItems (y :: rest)

def encodeFields : List (String × Json) → String
  | [] => ""
  | [(k, v)] => jsonQuote k ++ ":" ++ Json.encode v
  | (k, v) :: y :: rest =>
    jsonQuote k ++ ":" ++ Json.encode v ++ "," ++ encodeFields (y :: rest)

end

/-- `json.Marshal(wsMessage{Action:…, Event:…, Payload:…})` with the
struct's `omitempty` tags: an empty action or event string and a
zero-length payload slice are omitted.  `Bus.Emit` marshals with an
empty `Action`. -/
def marshalWsMessage (action event : String) (payload : List Json) : String :=
  let fields : List String :=
    (if action = "" then [] else [jsonQuote "action" ++ ":" ++ jsonQuote action]) ++
    (if event = "" then [] else [jsonQuote "event" ++ ":" ++ jsonQuote event]) ++
    (if payload.isEmpty then []
     else [jsonQuote "payload" ++ ":" ++ Json.encode (Json.arr payload)])
  "\x7b" ++ String.intercalate "," fields ++ "\x7d"

theorem marshalWsMessage_example :
    marshalWsMessage "" "tick" [Json.num 1, Json.str "a"] =
      "\x7b\"event\":\"tick\",\"payload\":[1,\"a\"]\x7d" := by
  decide

/-! ## The event bus (`pkg/eventbus`)

`Bus` holds `subscribers map[string]map[*Client]struct{}`,
`handlers map[string]map[int]Handler` and `nextHandlerID`; each `Client`
owns a buffered channel `send` and a `closed` signal.  Clients are
identified by `Nat`; handler callbacks are values of an abstract type
`H` (they are Go closures).  Every bus method runs under the registry
mutex in the source, so the concurrent system is linearised into a trace
of atomic operations `Op`; `step` is the transition function and also
reports the externally observable `Effect`s of the operation (channel
enqueues performed by `Client.queue`, handler invocations performed by
`emitFromClient`).  `Op.clientClose` is `Client.close`: it marks the
client closed (`close(c.closed)`) and then calls `Bus.removeClient`.
`Client.queue` drops the message when the client is closed (its
`select` takes the `<-closed` branch) and otherwise appends to `send`. -/

structure BusState (H : Type) where
  subscribers : List (String × List Nat)
  handlers : List (String × List (Nat × H))
  nextHandlerID : Nat

structure SysState (H : Type) where
  bus : BusState H
  queues : List (Nat × List String)
  closed : List Nat

section EventBus

variable {H : Type}

def initState : SysState H := ⟨⟨[], [], 0⟩, [], []⟩

inductive Op (H : Type) where
  | subscribe (event : String) (c : Nat)
  | unsubscribe (event : String) (c : Nat)
  | emit (event : String) (payload : List Json)
  | clientClose (c : Nat)
  | onH (event : String) (handler : H)
  | cancel (event : String) (id : Nat)
  | emitFromClient (event : String) (payload : List Json)

inductive Effect (H : Type) where
  | enqueue (c : Nat) (msg : String)
  | invoke (event : String) (id : Nat) (handler : H)
  deriving DecidableEq

def subsOf (s : SysState H) (e : String) : List Nat :=
  (lookupA s.bus.subscribers e).getD []

def handlersOf (s : SysState H) (e : String) : List (Nat × H) :=
  (lookupA s.bus.handlers e).getD []

def queueOf (s : SysState H) (c : Nat) : List String :=
  (lookupA s.queues c).getD []

/-- `Client.queue`: `select { case c.send <- payload: … case <-c.closed: }` —
append to the outbound queue unless the client has closed. -/
def queuePush (s : SysState H) (c : Nat) (msg : String) : SysState H :=
  if c ∈ s.closed then s
  else { s with queues := updateA s.queues c (queueOf s c ++ [msg]) }

/-- `Bus.Subscribe`: create the event's set if missing, then add the client. -/
def Subscribe (b : BusState H) (e : String) (c : Nat) : BusState H :=
  let cur := (lookupA b.subscribers e).getD []
  let cur' := if c ∈ cur then cur else cur ++ [c]
  { b with subscribers := updateA b.subscribers e cur' }

/-- `Bus.Unsubscribe`: remove the client; delete the event's entry if the
set became empty. -/
def Unsubscribe (b : BusState H) (e : String) (c : Nat) : BusState H :=
  match lookupA b.subscribers e with
  | none => b
  | some subs =>
    let subs' := subs.filter (fun x => !decide (x = c))
    if subs'.isEmpty then { b with subscribers := eraseKeyA b.subscribers e }
    else { b with subscribers := updateA b.subscribers e subs' }

/-- `Bus.removeClient`: drop the client from every event's set, deleting
entries whose set became empty. -/
def removeClient (b : BusState H) (c : Nat) : BusState H :=
  let dropped := b.subscribers.map (fun p => (p.1, p.2.filter (fun x => !decide (x = c))))
  { b with subscribers := dropped.filter (fun p => !p.2.isEmpty) }

/-- `Bus.On`: allocate the next handler id and register the handler under
the event (creating the event's entry if missing).  The returned id is
the one captured by the cancel closure. -/
def On (b : BusState H) (e : String) (h : H) : BusState H × Nat :=
  let id := b.nextHandlerID + 1
  let cur := (lookupA b.handlers e).getD []
  ({ b with handlers := updateA b.handlers e (cur ++ [(id, h)]),
            nextHandlerID := id }, id)

/-- The closure returned by `Bus.On`, called with its captured event name
and handler id: delete the id; delete the event's entry if it became
empty. -/
def cancelOn (b : BusState H) (e : String) (id : Nat) : BusState H :=
  match lookupA b.handlers e with
  | none => b
  | some hs =>
    let hs' := hs.filter (fun q => !decide (q.1 = id))
    if hs'.isEmpty then { b with handlers := eraseKeyA b.handlers e }
    else { b with handlers := updateA b.handlers e hs' }

def step (s : SysState H) : Op H → SysState H × List (Effect H)
  | .subscribe e c => ({ s with bus := Subscribe s.bus e c }, [])
  | .unsubscribe e c => ({ s with bus := Unsubscribe s.bus e c }, [])
  | .emit e p =>
    -- `Bus.Emit`: marshal once, then enqueue onto every subscriber.
    let data := marshalWsMessage "" e p
    let subs := subsOf s e
    (subs.foldl (fun st c => queuePush st c data) s,
     subs.map (fun c => Effect.enqueue c data))
  | .clientClose c =>
    ({ s with bus := removeClient s.bus c,
              closed := if c ∈ s.closed then s.closed else s.closed ++ [c] }, [])
  | .onH e h => ({ s with bus := (On s.bus e h).1 }, [])
  | .cancel e id => ({ s with bus := cancelOn s.bus e id }, [])
  | .emitFromClient e _p =>
    -- `Bus.emitFromClient`: invoke every registered handler; no state change.
    (s, (handlersOf s e).map (fun q => Effect.invoke e q.1 q.2))

def run (s : SysState H) : List (Op H) → SysState H
  | [] => s
  | op :: rest => run (step s op).1 rest

/-! ### Basic facts about the bus operations -/

theorem mem_of_lookupA {α β : Type} [DecidableEq α] {l : List (α × β)} {k : α} {v : β}
    (h : lookupA l k = some v) : (k, v) ∈ l := by
  induction l with
  | nil => cases h
  | cons p t ih =>
    obtain ⟨a, b⟩ := p
    by_cases hak : a = k
    · subst hak
      rw [lookupA_cons, if_pos rfl] at h
      injection h with h
      rw [← h]
      exact List.mem_cons_self _ _
    · rw [lookupA_cons, if_neg hak] at h
      exact List.mem_cons_of_mem _ (ih h)

theorem mem_updateA {α β : Type} [DecidableEq α] {l : List (α × β)} {k : α} {v : β}
    {x : α × β} (h : x ∈ updateA l k v) : x ∈ l ∨ x = (k, v) := by
  induction l with
  | nil =>
    simp [updateA] at h
    exact Or.inr h
  | cons p t ih =>
    obtain ⟨a, b⟩ := p
    by_cases hak : a = k
    · rw [updateA, if_pos hak] at h
      rcases List.mem_cons.mp h with h1 | h2
      · exact Or.inr h1
      · exact Or.inl (List.mem_cons_of_mem _ h2)
    · rw [updateA, if_neg hak] at h
      rcases List.mem_cons.mp h with h1 | h2
      · exact Or.inl (h1 ▸ List.mem_cons_self _ _)
      · rcases ih h2 with h3 | h3
        · exact Or.inl (List.mem_cons_of_mem _ h3)
        · exact Or.inr h3

theorem queuePush_bus (s : SysState H) (c : Nat) (m : String) :
    (queuePush s c m).bus = s.bus := by
  unfold queuePush
  split <;> rfl

theorem queuePush_closed (s : SysState H) (c : Nat) (m : String) :
    (queuePush s c m).closed = s.closed := by
  unfold queuePush
  split <;> rfl

theorem queueOf_queuePush_self (s : SysState H) (c : Nat) (m : String)
    (h : c ∉ s.closed) :
    queueOf (queuePush s c m) c = queueOf s c ++ [m] := by
  unfold queuePush
  rw [if_neg h]
  unfold queueOf
  simp [lookupA_updateA_self]

theorem queueOf_queuePush_ne (s : SysState H) (c d : Nat) (m : String) (h : d ≠ c) :
    queueOf (queuePush s c m) d = queueOf s d := by
  unfold queuePush
  split
  · rfl
  · unfold queueOf
    simp [lookupA_updateA_ne _ _ _ _ h]

theorem emitFold_bus (l : List Nat) (s : SysState H) (m : String) :
    (l.foldl (fun st c => queuePush st c m) s).bus = s.bus := by
  induction l generalizing s with
  | nil => rfl
  | cons a t ih =>
    simp only [List.foldl_cons]
    rw [ih, queuePush_bus]

theorem emitFold_closed (l : List Nat) (s : SysState H) (m : String) :
    (l.foldl (fun st c => queuePush st c m) s).closed = s.closed := by
  induction l generalizing s with
  | nil => rfl
  | cons a t ih =>
    simp only [List.foldl_cons]
    rw [ih, queuePush_closed]

theorem queueOf_emitFold_not_mem (l : List Nat) (s : SysState H) (m : String) (D : Nat)
    (h : D ∉ l) :
    queueOf (l.foldl (fun st c => queuePush st c m) s) D = queueOf s D := by
  induction l generalizing s with
  | nil => rfl
  | cons a t ih =>
    simp only [List.mem_cons, not_or] at h
    simp only [List.foldl_cons]
    rw [ih _ h.2, queueOf_queuePush_ne s a D m h.1]

theorem queueOf_emitFold_mem (l : List Nat) (s : SysState H) (m : String) (C : Nat)
    (hnd : l.Nodup) (hC : C ∈ l) (hcl : C ∉ s.closed) :
    queueOf (l.foldl (fun st c => queuePush st c m) s) C = queueOf s C ++ [m] := by
  induction l generalizing s with
  | nil => cases hC
  | cons a t ih =>
    rw [List.nodup_cons] at hnd
    simp only [List.foldl_cons]
    rcases List.mem_cons.mp hC with h1 | h2
    · subst h1
      rw [queueOf_emitFold_not_mem t _ m C hnd.1, queueOf_queuePush_self s C m hcl]
    · have hac : C ≠ a := fun hh => hnd.1 (hh ▸ h2)
      rw [ih (queuePush s a m) hnd.2 h2 (by rw [queuePush_closed]; exact hcl),
        queueOf_queuePush_ne s a C m hac]

/-! ### How each operation affects the subscriber registry -/

theorem step_on_subscribers (s : SysState H) (e : String) (h : H) :
    (step s (Op.onH e h)).1.bus.subscribers = s.bus.subscribers := rfl

theorem step_cancel_subscribers (s : SysState H) (e : String) (id : Nat) :
    (step s (Op.cancel e id)).1.bus.subscribers = s.bus.subscribers := by
  show (cancelOn s.bus e id).subscribers = s.bus.subscribers
  unfold cancelOn
  cases lookupA s.bus.handlers e with
  | none => rfl
  | some hs => dsimp only; split <;> rfl

theorem step_emitFromClient_state (s : SysState H) (e : String) (p : List Json) :
    (step s (Op.emitFromClient e p)).1 = s := rfl

theorem step_emit_bus (s : SysState H) (e : String) (p : List Json) :
    (step s (Op.emit e p)).1.bus = s.bus := by
  show (List.foldl _ s _).bus = s.bus
  exact emitFold_bus _ s _

theorem mem_subsOf_subscribe_self (s : SysState H) (E : String) (C : Nat) :
    C ∈ subsOf (step s (Op.subscribe E C)).1 E := by
  show C ∈ (lookupA (Subscribe s.bus E C).subscribers E).getD []
  unfold Subscribe
  rw [lookupA_updateA_self, Option.getD_some]
  by_cases hm : C ∈ (lookupA s.bus.subscribers E).getD [] <;> simp [hm]

theorem mem_subsOf_subscribe_mono (s : SysState H) (e' : String) (c' : Nat)
    (E : String) (C : Nat) (h : C ∈ subsOf s E) :
    C ∈ subsOf (step s (Op.subscribe e' c')).1 E := by
  show C ∈ (lookupA (Subscribe s.bus e' c').subscribers E).getD []
  unfold Subscribe
  by_cases he : e' = E
  · subst he
    rw [lookupA_updateA_self, Option.getD_some]
    by_cases hm : c' ∈ (lookupA s.bus.subscribers e').getD [] <;> simp [hm]
    · exact h
    · exact Or.inl h
  · rw [lookupA_updateA_ne _ _ _ _ (Ne.symm he)]
    exact h

theorem mem_subsOf_unsubscribe_mono (s : SysState H) (e' : String) (c' : Nat)
    (E : String) (C : Nat) (hcond : ¬(e' = E ∧ c' = C)) (h : C ∈ subsOf s E) :
    C ∈ subsOf (step s (Op.unsubscribe e' c')).1 E := by
  show C ∈ (lookupA (Unsubscribe s.bus e' c').subscribers E).getD []
  unfold Unsubscribe
  cases hl : lookupA s.bus.subscribers e' with
  | none => exact h
  | some subs =>
    dsimp only
    by_cases he : e' = E
    · subst he
      have hsubs : subsOf s e' = subs := by unfold subsOf; rw [hl]; rfl
      have hc' : c' ≠ C := fun hh => hcond ⟨rfl, hh⟩
      have hCf : C ∈ subs.filter (fun x => !decide (x = c')) := by
        refine List.mem_filter.mpr ⟨hsubs ▸ h, ?_⟩
        simp [Ne.symm hc']
      have hne : (subs.filter (fun x => !decide (x = c'))).isEmpty = false := by
        have := List.ne_nil_of_mem hCf
        cases hfe : (subs.filter (fun x => !decide (x = c'))) with
        | nil => exact absurd hfe this
        | cons y ys => rfl
      rw [if_neg (by rw [hne]; exact Bool.false_ne_true)]
      rw [lookupA_updateA_self, Option.getD_some]
      exact hCf
    · split
      · rw [lookupA_eraseKeyA_ne _ _ _ (Ne.symm he)]
        exact h
      · rw [lookupA_updateA_ne _ _ _ _ (Ne.symm he)]
        exact h

theorem lookupA_removeClient (l : List (String × List Nat)) (E : String) (c' : Nat)
    (v : List Nat) (hl : lookupA l E = some v)
    (hne : v.filter (fun x => !decide (x = c')) ≠ []) :
    lookupA ((l.map (fun p => (p.1, p.2.filter (fun x => !decide (x = c'))))).filter
        (fun p => !p.2.isEmpty)) E
      = some (v.filter (fun x => !decide (x = c'))) := by
  induction l with
  | nil => cases hl
  | cons p t ih =>
    obtain ⟨a, b⟩ := p
    by_cases hak : a = E
    · subst hak
      rw [lookupA_cons, if_pos rfl] at hl
      injection hl with hl
      subst hl
      have hkeep : (!(b.filter (fun x => !decide (x = c'))).isEmpty) = true := by
        cases hfe : b.filter (fun x => !decide (x = c')) with
        | nil => exact absurd hfe hne
        | cons y ys => rfl
      simp only [List.map_cons, List.filter_cons, hkeep, if_pos]
      rw [lookupA_cons, if_pos rfl]
    · rw [lookupA_cons, if_neg hak] at hl
      simp only [List.map_cons, List.filter_cons]
      split
      · rw [lookupA_cons, if_neg hak]
        exact ih hl
      · exact ih hl

theorem mem_subsOf_clientClose_mono (s : SysState H) (c' : Nat) (E : String) (C : Nat)
    (hc : c' ≠ C) (h : C ∈ subsOf s E) :
    C ∈ subsOf (step s (Op.clientClose c')).1 E := by
  show C ∈ (lookupA (removeClient s.bus c').subscribers E).getD []
  unfold removeClient
  unfold subsOf at h
  cases hl : lookupA s.bus.subscribers E with
  | none =>
    rw [hl] at h
    cases h
  | some v =>
    rw [hl, Option.getD_some] at h
    have hCf : C ∈ v.filter (fun x => !decide (x = c')) := by
      refine List.mem_filter.mpr ⟨h, ?_⟩
      simp [Ne.symm hc]
    rw [lookupA_removeClient s.bus.subscribers E c' v hl (List.ne_nil_of_mem hCf),
      Option.getD_some]
    exact hCf

/-! ### Trace predicates over operation lists

`subscribedAfter ops E C` says a `subscribe E C` occurred with no later
`unsubscribe E C` and no later close of `C` — the trace-level reading of
"C is subscribed to E".  `noCloseOf`/`noSubOf` say the trace never
closes `C` / never subscribes `D` to `E`. -/

def subUpdate (E : String) (C : Nat) (b : Bool) : Op H → Bool
  | .subscribe e' c' => if e' = E ∧ c' = C then true else b
  | .unsubscribe e' c' => if e' = E ∧ c' = C then false else b
  | .clientClose c' => if c' = C then false else b
  | _ => b

def subStatus (E : String) (C : Nat) : Bool → List (Op H) → Bool
  | b, [] => b
  | b, op :: rest => subStatus E C (subUpdate E C b op) rest

def subscribedAfter (ops : List (Op H)) (E : String) (C : Nat) : Bool :=
  subStatus E C false ops

def noCloseOf (C : Nat) : Op H → Bool
  | .clientClose c' => !decide (c' = C)
  | _ => true

def noSubOf (E : String) (D : Nat) : Op H → Bool
  | .subscribe e' d' => !(decide (e' = E) && decide (d' = D))
  | _ => true

theorem subStatus_sound (E : String) (C : Nat) (ops : List (Op H)) :
    ∀ (s : SysState H) (b : Bool),
      (b = true → C ∈ subsOf s E) → subStatus E C b ops = true →
      C ∈ subsOf (run s ops) E := by
  induction ops with
  | nil =>
    intro s b hb hs
    exact hb hs
  | cons op rest ih =>
    intro s b hb hs
    refine ih (step s op).1 (subUpdate E C b op) ?_ hs
    intro hb'
    cases op with
    | subscribe e' c' =>
      by_cases hcond : e' = E ∧ c' = C
      · obtain ⟨rfl, rfl⟩ := hcond
        exact mem_subsOf_subscribe_self s e' c'
      · simp only [subUpdate, if_neg hcond] at hb'
        exact mem_subsOf_subscribe_mono s e' c' E C (hb hb')
    | unsubscribe e' c' =>
      by_cases hcond : e' = E ∧ c' = C
      · simp only [subUpdate, if_pos hcond] at hb'
        cases hb'
      · simp only [subUpdate, if_neg hcond] at hb'
        exact mem_subsOf_unsubscribe_mono s e' c' E C hcond (hb hb')
    | emit e' p' =>
      have heq : subsOf (step s (Op.emit e' p')).1 E = subsOf s E := by
        unfold subsOf
        rw [step_emit_bus]
      rw [heq]
      exact hb hb'
    | clientClose c' =>
      by_cases hcond : c' = C
      · simp only [subUpdate, if_pos hcond] at hb'
        cases hb'
      · simp only [subUpdate, if_neg hcond] at hb'
        exact mem_subsOf_clientClose_mono s c' E C hcond (hb hb')
    | onH e' h' =>
      have heq : subsOf (step s (Op.onH e' h')).1 E = subsOf s E := by
        unfold subsOf
        rw [step_on_subscribers]
      rw [heq]
      exact hb hb'
    | cancel e' id' =>
      have heq : subsOf (step s (Op.cancel e' id')).1 E = subsOf s E := by
        unfold subsOf
        rw [step_cancel_subscribers]
      rw [heq]
      exact hb hb'
    | emitFromClient e' p' =>
      rw [step_emitFromClient_state]
      exact hb hb'

/-- `D` appears in no `E`-keyed entry of the subscriber registry. -/
def noMemAllE (E : String) (D : Nat) (s : SysState H) : Prop :=
  ∀ p ∈ s.bus.subscribers, p.1 = E → D ∉ p.2

theorem not_mem_subsOf_of_noMemAllE {E : String} {D : Nat} {s : SysState H}
    (h : noMemAllE E D s) : D ∉ subsOf s E := by
  unfold subsOf
  cases hl : lookupA s.bus.subscribers E with
  | none => simp
  | some v =>
    rw [Option.getD_some]
    exact h (E, v) (mem_of_lookupA hl) rfl

theorem noMemAllE_step (E : String) (D : Nat) (s : SysState H) (op : Op H)
    (hop : noSubOf E D op = true) (h : noMemAllE E D s) :
    noMemAllE E D (step s op).1 := by
  cases op with
  | subscribe e' d' =>
    have hcond : ¬(e' = E ∧ d' = D) := by
      intro ⟨h1, h2⟩
      simp [noSubOf, h1, h2] at hop
    intro p hp hpE
    rcases mem_updateA hp with hold | hnew
    · exact h p hold hpE
    · subst hnew
      simp only at hpE
      intro hD
      have hDcur : D ∉ (lookupA s.bus.subscribers e').getD [] := by
        cases hl : lookupA s.bus.subscribers e' with
        | none => simp
        | some v =>
          rw [Option.getD_some]
          exact h (e', v) (mem_of_lookupA hl) hpE
      have hd'D : d' ≠ D := fun hh => hcond ⟨hpE, hh⟩
      by_cases hmem : d' ∈ (lookupA s.bus.subscribers e').getD []
      · rw [if_pos hmem] at hD
        exact hDcur hD
      · rw [if_neg hmem] at hD
        rcases List.mem_append.mp hD with h1 | h2
        · exact hDcur h1
        · simp at h2
          exact hd'D h2.symm
  | unsubscribe e' c' =>
    intro p hp hpE
    revert hp
    show p ∈ (Unsubscribe s.bus e' c').subscribers → D ∉ p.2
    unfold Unsubscribe
    cases hl : lookupA s.bus.subscribers e' with
    | none => exact fun hp => h p hp hpE
    | some subs =>
      dsimp only
      split
      · intro hp
        exact h p (List.mem_filter.mp hp).1 hpE
      · intro hp
        rcases mem_updateA hp with hold | hnew
        · exact h p hold hpE
        · subst hnew
          intro hD
          exact h (e', subs) (mem_of_lookupA hl) hpE (List.mem_filter.mp hD).1
  | emit e' p' =>
    intro p hp hpE
    have hb : (step s (Op.emit e' p')).1.bus = s.bus := step_emit_bus s e' p'
    rw [hb] at hp
    exact h p hp hpE
  | clientClose c' =>
    intro p hp hpE
    have hp1 := (List.mem_filter.mp hp).1
    rcases List.mem_map.mp hp1 with ⟨q, hq, hqp⟩
    subst hqp
    intro hD
    exact h q hq hpE (List.mem_filter.mp hD).1
  | onH e' h' =>
    intro p hp hpE
    rw [step_on_subscribers] at hp
    exact h p hp hpE
  | cancel e' id' =>
    intro p hp hpE
    rw [step_cancel_subscribers] at hp
    exact h p hp hpE
  | emitFromClient e' p' =>
    intro p hp hpE
    rw [step_emitFromClient_state] at hp
    exact h p hp hpE

theorem neverSub_sound (E : String) (D : Nat) (ops : List (Op H)) :
    ∀ s : SysState H, noMemAllE E D s → ops.all (noSubOf E D) = true →
      noMemAllE E D (run s ops) := by
  induction ops with
  | nil => exact fun s h _ => h
  | cons op rest ih =>
    intro s h hall
    rw [List.all_cons, Bool.and_eq_true] at hall
    exact ih (step s op).1 (noMemAllE_step E D s op hall.1 h) hall.2

theorem closed_step_of_noClose (s : SysState H) (op : Op H) (C : Nat)
    (hop : noCloseOf C op = true) (h : C ∉ s.closed) : C ∉ (step s op).1.closed := by
  cases op with
  | subscribe e' c' => exact h
  | unsubscribe e' c' =>
    show C ∉ s.closed
    exact h
  | emit e' p' =>
    show C ∉ (List.foldl _ s _).closed
    rw [emitFold_closed]
    exact h
  | clientClose c' =>
    have hc : c' ≠ C := by simpa [noCloseOf] using hop
    show C ∉ (if c' ∈ s.closed then s.closed else s.closed ++ [c'])
    split
    · exact h
    · intro hmem
      rcases List.mem_append.mp hmem with h1 | h2
      · exact h h1
      · simp at h2
        exact hc h2.symm
  | onH e' h' => exact h
  | cancel e' id' => exact h
  | emitFromClient e' p' => exact h

theorem notClosed_run (C : Nat) (ops : List (Op H)) :
    ∀ s : SysState H, C ∉ s.closed → ops.all (noCloseOf C) = true →
      C ∉ (run s ops).closed := by
  induction ops with
  | nil => exact fun s h _ => h
  | cons op rest ih =>
    intro s h hall
    rw [List.all_cons, Bool.and_eq_true] at hall
    exact ih (step s op).1 (closed_step_of_noClose s op C hall.1 h) hall.2

/-! ### Well-formedness of the subscriber registry -/

/-- Every registered subscriber set is nonempty and duplicate-free (a Go
map's key set). -/
def subsWF (s : SysState H) : Prop :=
  ∀ p ∈ s.bus.subscribers, p.2 ≠ [] ∧ p.2.Nodup

theorem subsWF_step (s : SysState H) (op : Op H) (h : subsWF s) :
    subsWF (step s op).1 := by
  cases op with
  | subscribe e' c' =>
    intro p hp
    rcases mem_updateA hp with hold | hnew
    · exact h p hold
    · subst hnew
      have hcur : ((lookupA s.bus.subscribers e').getD [] = []) ∨
          ((e', (lookupA s.bus.subscribers e').getD []) ∈ s.bus.subscribers) := by
        cases hl : lookupA s.bus.subscribers e' with
        | none => exact Or.inl rfl
        | some v =>
          rw [Option.getD_some]
          exact Or.inr (mem_of_lookupA hl)
      have hnd : ((lookupA s.bus.subscribers e').getD []).Nodup := by
        rcases hcur with h1 | h1
        · rw [h1]; exact List.nodup_nil
        · exact (h _ h1).2
      dsimp only
      by_cases hmem : c' ∈ (lookupA s.bus.subscribers e').getD []
      · rw [if_pos hmem]
        exact ⟨List.ne_nil_of_mem hmem, hnd⟩
      · rw [if_neg hmem]
        constructor
        · intro hh
          cases List.append_eq_nil.mp hh with
          | intro _ h2 => cases h2
        · rw [List.nodup_append]
          refine ⟨hnd, List.nodup_singleton _, ?_⟩
          intro x hx hy
          simp at hy
          subst hy
          exact hmem hx
  | unsubscribe e' c' =>
    intro p hp
    revert hp
    show p ∈ (Unsubscribe s.bus e' c').subscribers → _
    unfold Unsubscribe
    cases hl : lookupA s.bus.subscribers e' with
    | none => exact fun hp => h p hp
    | some subs =>
      dsimp only
      split
      · intro hp
        exact h p (List.mem_filter.mp hp).1
      · next hne =>
        intro hp
        rcases mem_updateA hp with hold | hnew
        · exact h p hold
        · subst hnew
          refine ⟨?_, List.Nodup.filter _ (h (e', subs) (mem_of_lookupA hl)).2⟩
          show List.filter (fun x => !decide (x = c')) subs ≠ []
          intro hh
          rw [hh] at hne
          exact hne rfl
  | emit e' p' =>
    intro p hp
    have hb : (step s (Op.emit e' p')).1.bus = s.bus := step_emit_bus s e' p'
    rw [hb] at hp
    exact h p hp
  | clientClose c' =>
    intro p hp
    have hcond := (List.mem_filter.mp hp).2
    have hp1 := (List.mem_filter.mp hp).1
    rcases List.mem_map.mp hp1 with ⟨q, hq, hqp⟩
    subst hqp
    refine ⟨?_, List.Nodup.filter _ (h q hq).2⟩
    simp only [Bool.not_eq_true'] at hcond
    show List.filter (fun x => !decide (x = c')) q.2 ≠ []
    intro hh
    rw [hh] at hcond
    simp at hcond
  | onH e' h' =>
    intro p hp
    rw [step_on_subscribers] at hp
    exact h p hp
  | cancel e' id' =>
    intro p hp
    rw [step_cancel_subscribers] at hp
    exact h p hp
  | emitFromClient e' p' =>
    intro p hp
    rw [step_emitFromClient_state] at hp
    exact h p hp

theorem subsWF_run (ops : List (Op H)) :
    ∀ s : SysState H, subsWF s → subsWF (run s ops) := by
  induction ops with
  | nil => exact fun s h => h
  | cons op rest ih => exact fun s h => ih (step s op).1 (subsWF_step s op h)

/-! ### The handler registry -/

theorem Unsubscribe_handlers (b : BusState H) (e : String) (c : Nat) :
    (Unsubscribe b e c).handlers = b.handlers := by
  unfold Unsubscribe
  cases lookupA b.subscribers e with
  | none => rfl
  | some subs => dsimp only; split <;> rfl

theorem Unsubscribe_next (b : BusState H) (e : String) (c : Nat) :
    (Unsubscribe b e c).nextHandlerID = b.nextHandlerID := by
  unfold Unsubscribe
  cases lookupA b.subscribers e with
  | none => rfl
  | some subs => dsimp only; split <;> rfl

theorem lookupA_on_self (b : BusState H) (e : String) (h : H) :
    lookupA (On b e h).1.handlers e
      = some ((lookupA b.handlers e).getD [] ++ [(b.nextHandlerID + 1, h)]) := by
  unfold On
  exact lookupA_updateA_self _ _ _

theorem lookupA_on_ne (b : BusState H) (e e' : String) (h : H) (hne : e' ≠ e) :
    lookupA (On b e h).1.handlers e' = lookupA b.handlers e' := by
  unfold On
  exact lookupA_updateA_ne _ _ _ _ hne

theorem On_next (b : BusState H) (e : String) (h : H) :
    (On b e h).1.nextHandlerID = b.nextHandlerID + 1 := rfl

/-- Every looked-up handler entry is nonempty and every registered id is
bounded by `nextHandlerID`. -/
def handlersWF (s : SysState H) : Prop :=
  ∀ e : String,
    (∀ hs, lookupA s.bus.handlers e = some hs → hs ≠ []) ∧
    (∀ q ∈ handlersOf s e, q.1 ≤ s.bus.nextHandlerID)

/-- `id` is bounded by allocation and registered nowhere. -/
def idAbsent (id : Nat) (s : SysState H) : Prop :=
  id ≤ s.bus.nextHandlerID ∧ ∀ e : String, ∀ q ∈ handlersOf s e, q.1 ≠ id

theorem handlersWF_of_eq {s s' : SysState H}
    (hh : s'.bus.handlers = s.bus.handlers)
    (hn : s'.bus.nextHandlerID = s.bus.nextHandlerID)
    (h : handlersWF s) : handlersWF s' := by
  intro e
  constructor
  · intro hs hl
    rw [hh] at hl
    exact (h e).1 hs hl
  · intro q hq
    rw [hn]
    refine (h e).2 q ?_
    unfold handlersOf at hq ⊢
    rw [hh] at hq
    exact hq

theorem idAbsent_of_eq {id : Nat} {s s' : SysState H}
    (hh : s'.bus.handlers = s.bus.handlers)
    (hn : s'.bus.nextHandlerID = s.bus.nextHandlerID)
    (h : idAbsent id s) : idAbsent id s' := by
  refine ⟨by rw [hn]; exact h.1, ?_⟩
  intro e q hq
  refine h.2 e q ?_
  unfold handlersOf at hq ⊢
  rw [hh] at hq
  exact hq

theorem step_onH_bus (s : SysState H) (e : String) (h : H) :
    (step s (Op.onH e h)).1.bus = (On s.bus e h).1 := rfl

theorem step_cancel_bus (s : SysState H) (e : String) (id : Nat) :
    (step s (Op.cancel e id)).1.bus = cancelOn s.bus e id := rfl

theorem cancelOn_none (b : BusState H) (e : String) (id : Nat)
    (hl : lookupA b.handlers e = none) : cancelOn b e id = b := by
  unfold cancelOn
  rw [hl]

theorem cancelOn_erase (b : BusState H) (e : String) (id : Nat) (hs : List (Nat × H))
    (hl : lookupA b.handlers e = some hs)
    (hfe : (hs.filter (fun q => !decide (q.1 = id))).isEmpty = true) :
    cancelOn b e id = { b with handlers := eraseKeyA b.handlers e } := by
  unfold cancelOn
  rw [hl]
  dsimp only
  rw [if_pos hfe]

theorem cancelOn_update (b : BusState H) (e : String) (id : Nat) (hs : List (Nat × H))
    (hl : lookupA b.handlers e = some hs)
    (hfe : ¬(hs.filter (fun q => !decide (q.1 = id))).isEmpty = true) :
    cancelOn b e id =
      { b with handlers := updateA b.handlers e (hs.filter (fun q => !decide (q.1 = id))) } := by
  unfold cancelOn
  rw [hl]
  dsimp only
  rw [if_neg hfe]

theorem handlersWF_step (s : SysState H) (op : Op H) (h : handlersWF s) :
    handlersWF (step s op).1 := by
  cases op with
  | subscribe e' c' => exact handlersWF_of_eq rfl rfl h
  | unsubscribe e' c' =>
    exact handlersWF_of_eq (Unsubscribe_handlers s.bus e' c') (Unsubscribe_next s.bus e' c') h
  | emit e' p' =>
    exact handlersWF_of_eq (by rw [step_emit_bus]) (by rw [step_emit_bus]) h
  | clientClose c' => exact handlersWF_of_eq rfl rfl h
  | emitFromClient e' p' => exact handlersWF_of_eq rfl rfl h
  | onH e' h' =>
    have hh : (step s (Op.onH e' h')).1.bus.handlers = (On s.bus e' h').1.handlers := rfl
    have hn : (step s (Op.onH e' h')).1.bus.nextHandlerID = s.bus.nextHandlerID + 1 := rfl
    intro e
    constructor
    · intro hs hl
      rw [hh] at hl
      by_cases he : e = e'
      · subst he
        rw [lookupA_on_self] at hl
        injection hl with hl
        rw [← hl]
        simp
      · rw [lookupA_on_ne _ _ _ _ he] at hl
        exact (h e).1 hs hl
    · intro q hq
      unfold handlersOf at hq
      rw [hh] at hq
      rw [hn]
      by_cases he : e = e'
      · subst he
        rw [lookupA_on_self, Option.getD_some] at hq
        rcases List.mem_append.mp hq with h1 | h2
        · exact Nat.le_succ_of_le ((h e).2 q h1)
        · simp at h2
          rw [h2]
      · rw [lookupA_on_ne _ _ _ _ he] at hq
        exact Nat.le_succ_of_le ((h e).2 q hq)
  | cancel e' id' =>
    cases hl : lookupA s.bus.handlers e' with
    | none =>
      refine handlersWF_of_eq ?_ ?_ h <;>
        rw [step_cancel_bus, cancelOn_none s.bus e' id' hl]
    | some hs =>
      by_cases hfe : (hs.filter (fun q => !decide (q.1 = id'))).isEmpty = true
      · have hh : (step s (Op.cancel e' id')).1.bus.handlers
            = eraseKeyA s.bus.handlers e' := by
          rw [step_cancel_bus, cancelOn_erase s.bus e' id' hs hl hfe]
        have hn : (step s (Op.cancel e' id')).1.bus.nextHandlerID
            = s.bus.nextHandlerID := by
          rw [step_cancel_bus, cancelOn_erase s.bus e' id' hs hl hfe]
        intro e
        constructor
        · intro hs' hl'
          rw [hh] at hl'
          by_cases he : e = e'
          · subst he
            rw [lookupA_eraseKeyA_self] at hl'
            cases hl'
          · rw [lookupA_eraseKeyA_ne _ _ _ he] at hl'
            exact (h e).1 hs' hl'
        · intro q hq
          unfold handlersOf at hq
          rw [hh] at hq
          rw [hn]
          by_cases he : e = e'
          · subst he
            rw [lookupA_eraseKeyA_self] at hq
            cases hq
          · rw [lookupA_eraseKeyA_ne _ _ _ he] at hq
            exact (h e).2 q hq
      · have hh : (step s (Op.cancel e' id')).1.bus.handlers
            = updateA s.bus.handlers e' (hs.filter (fun q => !decide (q.1 = id'))) := by
          rw [step_cancel_bus, cancelOn_update s.bus e' id' hs hl hfe]
        have hn : (step s (Op.cancel e' id')).1.bus.nextHandlerID
            = s.bus.nextHandlerID := by
          rw [step_cancel_bus, cancelOn_update s.bus e' id' hs hl hfe]
        intro e
        constructor
        · intro hs' hl'
          rw [hh] at hl'
          by_cases he : e = e'
          · subst he
            rw [lookupA_updateA_self] at hl'
            injection hl' with hl'
            rw [← hl']
            intro hemp
            rw [hemp] at hfe
            exact hfe rfl
          · rw [lookupA_updateA_ne _ _ _ _ he] at hl'
            exact (h e).1 hs' hl'
        · intro q hq
          unfold handlersOf at hq
          rw [hh] at hq
          rw [hn]
          by_cases he : e = e'
          · subst he
            rw [lookupA_updateA_self, Option.getD_some] at hq
            refine (h e).2 q ?_
            unfold handlersOf
            rw [hl, Option.getD_some]
            exact (List.mem_filter.mp hq).1
          · rw [lookupA_updateA_ne _ _ _ _ he] at hq
            exact (h e).2 q hq

theorem handlersWF_run (ops : List (Op H)) :
    ∀ s : SysState H, handlersWF s → handlersWF (run s ops) := by
  induction ops with
  | nil => exact fun s h => h
  | cons op rest ih => exact fun s h => ih (step s op).1 (handlersWF_step s op h)

theorem idAbsent_step (id : Nat) (s : SysState H) (op : Op H) (h : idAbsent id s) :
    idAbsent id (step s op).1 := by
  cases op with
  | subscribe e' c' => exact idAbsent_of_eq rfl rfl h
  | unsubscribe e' c' =>
    exact idAbsent_of_eq (Unsubscribe_handlers s.bus e' c') (Unsubscribe_next s.bus e' c') h
  | emit e' p' =>
    exact idAbsent_of_eq (by rw [step_emit_bus]) (by rw [step_emit_bus]) h
  | clientClose c' => exact idAbsent_of_eq rfl rfl h
  | emitFromClient e' p' => exact idAbsent_of_eq rfl rfl h
  | onH e' h' =>
    have hh : (step s (Op.onH e' h')).1.bus.handlers = (On s.bus e' h').1.handlers := rfl
    have hn : (step s (Op.onH e' h')).1.bus.nextHandlerID = s.bus.nextHandlerID + 1 := rfl
    constructor
    · rw [hn]
      exact Nat.le_succ_of_le h.1
    · intro e q hq
      unfold handlersOf at hq
      rw [hh] at hq
      by_cases he : e = e'
      · subst he
        rw [lookupA_on_self, Option.getD_some] at hq
        rcases List.mem_append.mp hq with h1 | h2
        · exact h.2 e q h1
        · simp at h2
          rw [h2]
          show s.bus.nextHandlerID + 1 ≠ id
          have hbound := h.1
          omega
      · rw [lookupA_on_ne _ _ _ _ he] at hq
        exact h.2 e q hq
  | cancel e' id' =>
    cases hl : lookupA s.bus.handlers e' with
    | none =>
      refine idAbsent_of_eq ?_ ?_ h <;>
        rw [step_cancel_bus, cancelOn_none s.bus e' id' hl]
    | some hs =>
      by_cases hfe : (hs.filter (fun q => !decide (q.1 = id'))).isEmpty = true
      · have hh : (step s (Op.cancel e' id')).1.bus.handlers
            = eraseKeyA s.bus.handlers e' := by
          rw [step_cancel_bus, cancelOn_erase s.bus e' id' hs hl hfe]
        have hn : (step s (Op.cancel e' id')).1.bus.nextHandlerID
            = s.bus.nextHandlerID := by
          rw [step_cancel_bus, cancelOn_erase s.bus e' id' hs hl hfe]
        refine ⟨by rw [hn]; exact h.1, ?_⟩
        intro e q hq
        unfold handlersOf at hq
        rw [hh] at hq
        by_cases he : e = e'
        · subst he
          rw [lookupA_eraseKeyA_self] at hq
          cases hq
        · rw [lookupA_eraseKeyA_ne _ _ _ he] at hq
          exact h.2 e q hq
      · have hh : (step s (Op.cancel e' id')).1.bus.handlers
            = updateA s.bus.handlers e' (hs.filter (fun q => !decide (q.1 = id'))) := by
          rw [step_cancel_bus, cancelOn_update s.bus e' id' hs hl hfe]
        have hn : (step s (Op.cancel e' id')).1.bus.nextHandlerID
            = s.bus.nextHandlerID := by
          rw [step_cancel_bus, cancelOn_update s.bus e' id' hs hl hfe]
        refine ⟨by rw [hn]; exact h.1, ?_⟩
        intro e q hq
        unfold handlersOf at hq
        rw [hh] at hq
        by_cases he : e = e'
        · subst he
          rw [lookupA_updateA_self, Option.getD_some] at hq
          refine h.2 e q ?_
          unfold handlersOf
          rw [hl, Option.getD_some]
          exact (List.mem_filter.mp hq).1
        · rw [lookupA_updateA_ne _ _ _ _ he] at hq
          exact h.2 e q hq

theorem idAbsent_run (id : Nat) (ops : List (Op H)) :
    ∀ s : SysState H, idAbsent id s → idAbsent id (run s ops) := by
  induction ops with
  | nil => exact fun s h => h
  | cons op rest ih => exact fun s h => ih (step s op).1 (idAbsent_step id s op h)

/-- When the captured id is registered nowhere (and looked-up entries are
nonempty), the cancel closure leaves the bus exactly as it was. -/
theorem cancelOn_noop (b : BusState H) (e : String) (id : Nat)
    (hids : ∀ q ∈ (lookupA b.handlers e).getD [], q.1 ≠ id)
    (hne : ∀ hs, lookupA b.handlers e = some hs → hs ≠ []) :
    cancelOn b e id = b := by
  unfold cancelOn
  cases hl : lookupA b.handlers e with
  | none => rfl
  | some hs =>
    dsimp only
    have hstight : ∀ q ∈ hs, q.1 ≠ id := by
      intro q hq
      refine hids q ?_
      rw [hl, Option.getD_some]
      exact hq
    have hfilter : hs.filter (fun q => !decide (q.1 = id)) = hs := by
      refine List.filter_eq_self.mpr ?_
      intro q hq
      simp [hstight q hq]
    rw [hfilter]
    have hsne : hs ≠ [] := hne hs hl
    have hemp : ¬(hs.isEmpty = true) := by
      cases hcs : hs with
      | nil => exact absurd hcs hsne
      | cons y ys => simp [hcs]
    rw [if_neg hemp, updateA_self_of_lookupA _ _ _ hl]

/-- Whether the effect list invokes the handler registered under `id`. -/
def invokesId (effs : List (Effect H)) (id : Nat) : Bool :=
  effs.any (fun eff =>
    match eff with
    | .invoke _ i _ => decide (i = id)
    | _ => false)

theorem handlersWF_init : handlersWF (initState (H := H)) := by
  intro e
  constructor
  · intro hs hl
    cases hl
  · intro q hq
    cases hq

end EventBus

/-- C7: registering `H1` then `H2` for event `E` hands out the ids
`n + 1` and `n + 2` (`n` the allocation counter before the calls); after
invoking the cancel closure for `H1` (captured pair `(E, n + 1)`), a
client-emitted event for `E` dispatched by `emitFromClient` invokes the
registration `n + 2` (= `H2`) and never the registration `n + 1` (= `H1`);
and invoking the same cancel closure again — even after arbitrary further
operations `ops₁`, including new registrations — changes nothing and
removes no handler, because handler ids are never reused. -/
theorem on_cancel_exact {H : Type} (ops₀ ops₁ : List (Op H)) (E : String)
    (H1 H2 : H) (P : List Json) (s : SysState H) (n : Nat) (s3 : SysState H)
    (hs : s = run (initState (H := H)) ops₀)
    (hn : n = s.bus.nextHandlerID)
    (hs3 : s3 = run s [Op.onH E H1, Op.onH E H2, Op.cancel E (n + 1)]) :
    (Effect.invoke E (n + 2) H2 ∈ (step s3 (Op.emitFromClient E P)).2) ∧
    (invokesId (step s3 (Op.emitFromClient E P)).2 (n + 2) = true) ∧
    (invokesId (step s3 (Op.emitFromClient E P)).2 (n + 1) = false) ∧
    ((step (run s3 ops₁) (Op.cancel E (n + 1))).1 = run s3 ops₁) ∧
    ((step (run s3 ops₁) (Op.cancel E (n + 1))).2 = []) := by
  have hWF : handlersWF s := hs ▸ handlersWF_run ops₀ _ handlersWF_init
  have hbase : ∀ q ∈ handlersOf s E, q.1 ≤ n := by
    intro q hq
    rw [hn]
    exact (hWF E).2 q hq
  -- the three intermediate states
  have hs3' : s3 = (step (step (step s (Op.onH E H1)).1 (Op.onH E H2)).1
      (Op.cancel E (n + 1))).1 := hs3
  have f1 : lookupA (step s (Op.onH E H1)).1.bus.handlers E
      = some (handlersOf s E ++ [(n + 1, H1)]) := by
    rw [step_onH_bus, lookupA_on_self, hn]
    rfl
  have f2 : (step s (Op.onH E H1)).1.bus.nextHandlerID = n + 1 := by
    rw [step_onH_bus, On_next, hn]
  have f3 : lookupA (step (step s (Op.onH E H1)).1 (Op.onH E H2)).1.bus.handlers E
      = some ((handlersOf s E ++ [(n + 1, H1)]) ++ [(n + 2, H2)]) := by
    rw [step_onH_bus, lookupA_on_self, f1, f2]
    rfl
  have hfilterEq : ((handlersOf s E ++ [(n + 1, H1)]) ++ [(n + 2, H2)]).filter
      (fun q => !decide (q.1 = n + 1)) = handlersOf s E ++ [(n + 2, H2)] := by
    rw [List.filter_append, List.filter_append]
    have hb : (handlersOf s E).filter (fun q => !decide (q.1 = n + 1)) = handlersOf s E := by
      refine List.filter_eq_self.mpr ?_
      intro q hq
      have := hbase q hq
      simp only [Bool.not_eq_true', decide_eq_false_iff_not]
      omega
    have h1 : ([((n + 1 : Nat), H1)]).filter (fun q => !decide (q.1 = n + 1)) = [] := by
      simp
    have h2 : ([((n + 2 : Nat), H2)]).filter (fun q => !decide (q.1 = n + 1))
        = [(n + 2, H2)] := by
      have : ¬(n + 2 = n + 1) := by omega
      simp [this]
    rw [hb, h1, h2, List.append_nil]
  have hfe : ¬(((handlersOf s E ++ [(n + 1, H1)]) ++ [(n + 2, H2)]).filter
      (fun q => !decide (q.1 = n + 1))).isEmpty = true := by
    rw [hfilterEq]
    intro habs
    have : handlersOf s E ++ [(n + 2, H2)] = [] := by
      cases hcs : handlersOf s E ++ [(n + 2, H2)] with
      | nil => rfl
      | cons y ys => rw [hcs] at habs; cases habs
    exact absurd this (by simp)
  have f5 : s3.bus.handlers
      = updateA (step (step s (Op.onH E H1)).1 (Op.onH E H2)).1.bus.handlers E
          (handlersOf s E ++ [(n + 2, H2)]) := by
    rw [hs3', step_cancel_bus, cancelOn_update _ E (n + 1) _ f3 hfe, hfilterEq]
  have f6 : lookupA s3.bus.handlers E = some (handlersOf s E ++ [(n + 2, H2)]) := by
    rw [f5, lookupA_updateA_self]
  have f7 : handlersOf s3 E = handlersOf s E ++ [(n + 2, H2)] := by
    show (lookupA s3.bus.handlers E).getD [] = _
    rw [f6, Option.getD_some]
  have heffs : (step s3 (Op.emitFromClient E P)).2
      = (handlersOf s E ++ [(n + 2, H2)]).map (fun q => Effect.invoke E q.1 q.2) := by
    show (handlersOf s3 E).map (fun q => Effect.invoke E q.1 q.2) = _
    rw [f7]
  have hnext3 : s3.bus.nextHandlerID = n + 2 := by
    rw [hs3', step_cancel_bus, cancelOn_update _ E (n + 1) _ f3 hfe]
    show (step (step s (Op.onH E H1)).1 (Op.onH E H2)).1.bus.nextHandlerID = n + 2
    rw [step_onH_bus, On_next, f2]
  refine ⟨?_, ?_, ?_, ?_, ?_⟩
  · rw [heffs, List.map_append]
    refine List.mem_append_right _ ?_
    simp
  · rw [heffs]
    refine List.any_eq_true.mpr ?_
    refine ⟨Effect.invoke E (n + 2) H2, ?_, by simp⟩
    rw [List.map_append]
    refine List.mem_append_right _ ?_
    simp
  · rw [heffs]
    cases hany : ((handlersOf s E ++ [(n + 2, H2)]).map
        (fun q => Effect.invoke E q.1 q.2)).any (fun eff =>
          match eff with
          | .invoke _ i _ => decide (i = n + 1)
          | _ => false) with
    | false => exact hany
    | true =>
      exfalso
      rcases List.any_eq_true.mp hany with ⟨eff, heff, hpred⟩
      rcases List.mem_map.mp heff with ⟨q, hq, rfl⟩
      simp only [decide_eq_true_eq] at hpred
      rcases List.mem_append.mp hq with h1 | h2
      · have := hbase q h1
        omega
      · simp at h2
        rw [h2] at hpred
        simp at hpred
  -- the second cancel is a no-op on the state …
  · have hA3 : idAbsent (n + 1) s3 := by
      refine ⟨by rw [hnext3]; omega, ?_⟩
      intro e q hq
      by_cases he : e = E
      · subst he
        rw [f7] at hq
        rcases List.mem_append.mp hq with h1 | h2
        · have := hbase q h1
          omega
        · simp at h2
          rw [h2]
          show n + 2 ≠ n + 1
          omega
      · -- handlers for other events are untouched by the three steps
        have hchain : lookupA s3.bus.handlers e = lookupA s.bus.handlers e := by
          rw [f5, lookupA_updateA_ne _ _ _ _ he, step_onH_bus,
            lookupA_on_ne _ _ _ _ he, step_onH_bus, lookupA_on_ne _ _ _ _ he]
        unfold handlersOf at hq
        rw [hchain] at hq
        have hb := (hWF e).2 q hq
        rw [← hn] at hb
        intro hcontra
        rw [hcontra] at hb
        omega
    have hA4 : idAbsent (n + 1) (run s3 ops₁) := idAbsent_run (n + 1) ops₁ s3 hA3
    have hWF3 : handlersWF s3 := by
      rw [hs3']
      exact handlersWF_step _ _ (handlersWF_step _ _ (handlersWF_step _ _ hWF))
    have hWF4 : handlersWF (run s3 ops₁) := handlersWF_run ops₁ s3 hWF3
    have hnoop : cancelOn (run s3 ops₁).bus E (n + 1) = (run s3 ops₁).bus := by
      refine cancelOn_noop _ E (n + 1) ?_ ?_
      · exact fun q hq => hA4.2 E q hq
      · exact fun hs0 hl => (hWF4 E).1 hs0 hl
    show { run s3 ops₁ with bus := cancelOn (run s3 ops₁).bus E (n + 1) } = run s3 ops₁
    rw [hnoop]
  -- … and reports no effects
  · rfl


/-- C6: in every bus state reachable from the empty initial registry by
any operation sequence (in particular by Subscribe, Unsubscribe, Emit and
removeClient), the subscriber registry maps no event name to an empty
subscriber set — removing the last subscriber (by `Unsubscribe` or by
`removeClient`) deletes the event's entry in the same operation. -/
theorem bus_no_empty_subscriber_sets {H : Type} (ops : List (Op H)) :
    ((run (initState (H := H)) ops).bus.subscribers.all (fun p => !p.2.isEmpty)) = true := by
  have hwf := subsWF_run ops (initState (H := H)) (by intro p hp; cases hp)
  rw [List.all_eq_true]
  intro p hp
  have hne := (hwf p hp).1
  cases hfe : p.2 with
  | nil => exact absurd hfe hne
  | cons y ys => rfl

/-- C2: if `C` is subscribed to `E` (a `subscribe E C` with no later
`unsubscribe E C`, for a connection that has never closed) and `D` has
never been subscribed to `E`, then `Emit(E, P)` appends exactly one
message — the JSON serialisation of `{event: E, payload: P}` — to `C`'s
outbound queue and leaves `D`'s outbound queue unchanged. -/
theorem emit_delivers_exactly_to_subscribers {H : Type} (ops : List (Op H)) (E : String)
    (P : List Json) (C D : Nat)
    (hC : subscribedAfter ops E C = true)
    (hCopen : ops.all (noCloseOf C) = true)
    (hD : ops.all (noSubOf E D) = true) :
    queueOf ((step (run (initState (H := H)) ops) (Op.emit E P)).1) C
      = queueOf (run (initState (H := H)) ops) C ++ [marshalWsMessage "" E P] ∧
    queueOf ((step (run (initState (H := H)) ops) (Op.emit E P)).1) D
      = queueOf (run (initState (H := H)) ops) D := by
  have hmem : C ∈ subsOf (run (initState (H := H)) ops) E :=
    subStatus_sound E C ops (initState (H := H)) false (by intro hh; cases hh) hC
  have hnd : (subsOf (run (initState (H := H)) ops) E).Nodup := by
    have hwf := subsWF_run ops (initState (H := H)) (by intro p hp; cases hp)
    unfold subsOf
    cases hl : lookupA (run (initState (H := H)) ops).bus.subscribers E with
    | none => simp
    | some v =>
      rw [Option.getD_some]
      exact (hwf (E, v) (mem_of_lookupA hl)).2
  have hDnot : D ∉ subsOf (run (initState (H := H)) ops) E :=
    not_mem_subsOf_of_noMemAllE
      (neverSub_sound E D ops (initState (H := H)) (by intro p hp; cases hp) hD)
  have hclC : C ∉ (run (initState (H := H)) ops).closed :=
    notClosed_run C ops (initState (H := H)) (by intro hh; cases hh) hCopen
  constructor
  · exact queueOf_emitFold_mem _ _ _ C hnd hmem hclC
  · exact queueOf_emitFold_not_mem _ _ _ D hDnot

/-- C2 witness: after `subscribe "x" 1`, an emit of `"x"` with payload
`["hi"]` appends exactly the serialised frame to client 1's queue and
leaves the never-subscribed client 2's queue unchanged. -/
theorem emit_delivers_exactly_to_subscribers_witness :
    queueOf ((step (run (initState (H := Nat)) [Op.subscribe "x" 1])
        (Op.emit "x" [Json.str "hi"])).1) 1
      = queueOf (run (initState (H := Nat)) [Op.subscribe "x" 1]) 1 ++
        [marshalWsMessage "" "x" [Json.str "hi"]] ∧
    queueOf ((step (run (initState (H := Nat)) [Op.subscribe "x" 1])
        (Op.emit "x" [Json.str "hi"])).1) 2
      = queueOf (run (initState (H := Nat)) [Op.subscribe "x" 1]) 2 :=
  emit_delivers_exactly_to_subscribers [Op.subscribe "x" 1] "x" [Json.str "hi"] 1 2
    (by decide) (by decide) (by decide)

/-- C7 witness: instantiates `on_cancel_exact` with an empty prior trace,
handlers `1` and `2` (ids `1` and `2`), a later registration `3`, and the
cancel closure for id `1` invoked twice. -/
theorem on_cancel_exact_witness :
    (Effect.invoke "e" (0 + 2) (2 : Nat) ∈
      (step (run (run (initState (H := Nat)) [])
          [Op.onH "e" 1, Op.onH "e" 2, Op.cancel "e" (0 + 1)])
        (Op.emitFromClient "e" [])).2) ∧
    (invokesId (step (run (run (initState (H := Nat)) [])
          [Op.onH "e" 1, Op.onH "e" 2, Op.cancel "e" (0 + 1)])
        (Op.emitFromClient "e" [])).2 (0 + 2) = true) ∧
    (invokesId (step (run (run (initState (H := Nat)) [])
          [Op.onH "e" 1, Op.onH "e" 2, Op.cancel "e" (0 + 1)])
        (Op.emitFromClient "e" [])).2 (0 + 1) = false) ∧
    ((step (run (run (run (initState (H := Nat)) [])
          [Op.onH "e" 1, Op.onH "e" 2, Op.cancel "e" (0 + 1)]) [Op.onH "e" 3])
        (Op.cancel "e" (0 + 1))).1
      = run (run (run (initState (H := Nat)) [])
          [Op.onH "e" 1, Op.onH "e" 2, Op.cancel "e" (0 + 1)]) [Op.onH "e" 3]) ∧
    ((step (run (run (run (initState (H := Nat)) [])
          [Op.onH "e" 1, Op.onH "e" 2, Op.cancel "e" (0 + 1)]) [Op.onH "e" 3])
        (Op.cancel "e" (0 + 1))).2 = []) :=
  on_cancel_exact [] [Op.onH "e" 3] "e" 1 2 [] (run (initState (H := Nat)) []) 0
    (run (run (initState (H := Nat)) [])
      [Op.onH "e" 1, Op.onH "e" 2, Op.cancel "e" (0 + 1)])
    rfl rfl rfl

/-- C10: `Emit` and `emitFromClient` route through disjoint registries.
`Emit` produces only `enqueue` effects, each addressed to a subscriber of
the event and carrying the serialised frame, and leaves the bus registries
untouched — it never invokes an `On` handler.  `emitFromClient` leaves the
whole state untouched and produces only `invoke` effects, one for each
handler registered under the event — it never enqueues onto any outbound
queue.  A server-originated `Emit` is therefore never observable through
`On`. -/
theorem emit_dispatch_disjoint {H : Type} (s : SysState H) (e : String) (p : List Json) :
    ((step s (Op.emit e p)).2.all (fun eff =>
        match eff with
        | Effect.invoke _ _ _ => false
        | _ => true) = true) ∧
    ((step s (Op.emit e p)).1.bus = s.bus) ∧
    (∀ eff ∈ (step s (Op.emit e p)).2,
      ∃ c, c ∈ subsOf s e ∧ eff = Effect.enqueue c (marshalWsMessage "" e p)) ∧
    ((step s (Op.emitFromClient e p)).1 = s) ∧
    ((step s (Op.emitFromClient e p)).2.all (fun eff =>
        match eff with
        | Effect.enqueue _ _ => false
        | _ => true) = true) ∧
    (∀ eff ∈ (step s (Op.emitFromClient e p)).2,
      ∃ id h, (id, h) ∈ handlersOf s e ∧ eff = Effect.invoke e id h) := by
  refine ⟨?_, step_emit_bus s e p, ?_, rfl, ?_, ?_⟩
  · rw [List.all_eq_true]
    intro eff heff
    rcases List.mem_map.mp heff with ⟨c, hc, rfl⟩
    rfl
  · intro eff heff
    rcases List.mem_map.mp heff with ⟨c, hc, rfl⟩
    exact ⟨c, hc, rfl⟩
  · rw [List.all_eq_true]
    intro eff heff
    rcases List.mem_map.mp heff with ⟨q, hq, rfl⟩
    rfl
  · intro eff heff
    rcases List.mem_map.mp heff with ⟨q, hq, rfl⟩
    exact ⟨q.1, q.2, hq, rfl⟩

/-- C10 witness: a bus with one subscriber and one handler for `"x"` — the
emit effect list is exactly one enqueue to the subscriber, and the
client-emit effect list is exactly one handler invocation. -/
theorem emit_dispatch_disjoint_witness :
    ((step (run (initState (H := Nat)) [Op.subscribe "x" 1, Op.onH "x" 7])
        (Op.emit "x" [])).1.bus
      = (run (initState (H := Nat)) [Op.subscribe "x" 1, Op.onH "x" 7]).bus) ∧
    (∃ c, c ∈ subsOf (run (initState (H := Nat)) [Op.subscribe "x" 1, Op.onH "x" 7]) "x" ∧
      (Effect.enqueue 1 (marshalWsMessage "" "x" []) : Effect Nat)
        = Effect.enqueue c (marshalWsMessage "" "x" [])) ∧
    ((step (run (initState (H := Nat)) [Op.subscribe "x" 1, Op.onH "x" 7])
        (Op.emitFromClient "x" [])).1
      = run (initState (H := Nat)) [Op.subscribe "x" 1, Op.onH "x" 7]) ∧
    (∃ id h, (id, h) ∈ handlersOf
        (run (initState (H := Nat)) [Op.subscribe "x" 1, Op.onH "x" 7]) "x" ∧
      Effect.invoke "x" 1 (7 : Nat) = Effect.invoke "x" id h) := by
  have h := emit_dispatch_disjoint
    (run (initState (H := Nat)) [Op.subscribe "x" 1, Op.onH "x" 7]) "x" []
  refine ⟨h.2.1, h.2.2.1 (Effect.enqueue 1 (marshalWsMessage "" "x" [])) (by decide),
    h.2.2.2.1, h.2.2.2.2.2 (Effect.invoke "x" 1 (7 : Nat)) (by decide)⟩

/-! ## The lock discipline of `Bus.Emit` (claim C9)

`Bus.Emit`'s body is

```go
b.mu.RLock()
defer b.mu.RUnlock()
for client := range b.subscribers[event] {
    client.queue(data)
}
```

`emitTrace` is the sequence of lock and enqueue actions one call
performs, read directly off this body: the read lock is acquired, the
range loop enqueues onto every subscriber, and the deferred unlock runs
at function exit — after the loop. -/

inductive EmitAction where
  | lockRAcquire
  | enqueue (c : Nat) (msg : String)
  | lockRRelease
  deriving DecidableEq

def emitTrace {H : Type} (s : SysState H) (e : String) (p : List Json) : List EmitAction :=
  let data := marshalWsMessage "" e p
  EmitAction.lockRAcquire ::
    ((subsOf s e).map (fun c => EmitAction.enqueue c data) ++ [EmitAction.lockRRelease])

/-- The claim as stated: the read lock is released before any
per-subscriber enqueue, i.e. scanning the trace in order, the release
action comes before every enqueue action. -/
def releasedBeforeEnqueues : List EmitAction → Bool
  | [] => true
  | EmitAction.lockRRelease :: _ => true
  | EmitAction.enqueue _ _ :: _ => false
  | EmitAction.lockRAcquire :: rest => releasedBeforeEnqueues rest

/-- The amended property: the trace opens with the lock acquisition,
closes with the release, and everything in between is an enqueue — the
lock is held while every enqueue is performed. -/
def lockBracketed (tr : List EmitAction) : Bool :=
  (match tr.head? with
   | some EmitAction.lockRAcquire => true
   | _ => false) &&
  (match tr.getLast? with
   | some EmitAction.lockRRelease => true
   | _ => false) &&
  ((tr.drop 1).dropLast.all (fun a =>
    match a with
    | EmitAction.enqueue _ _ => true
    | _ => false))

/-- C9, counterexample to the claim as stated: with one subscriber the
trace is `[RLock, enqueue, RUnlock]` — the enqueue happens before the
deferred `RUnlock`, not after it. -/
theorem emit_lock_counterexample :
    releasedBeforeEnqueues
      (emitTrace (run (initState (H := Nat)) [Op.subscribe "e" 1]) "e" []) = false ∧
    subsOf (run (initState (H := Nat)) [Op.subscribe "e" 1]) "e" = [1] := by
  constructor
  · decide
  · decide

/-- C9 (amended): `Emit` acquires the registry read lock before the first
per-subscriber enqueue and releases it (via `defer`) only after the last
one: every enqueue is performed while the read lock is held.  The lock is
therefore held for the whole fan-out, not released before it. -/
theorem emit_lock_held_during_enqueues {H : Type} (s : SysState H) (e : String)
    (p : List Json) :
    lockBracketed (emitTrace s e p) = true := by
  unfold lockBracketed emitTrace
  have h1 : (EmitAction.lockRAcquire ::
      ((subsOf s e).map (fun c => EmitAction.enqueue c (marshalWsMessage "" e p))
        ++ [EmitAction.lockRRelease])).head? = some EmitAction.lockRAcquire := rfl
  have h2 : (EmitAction.lockRAcquire ::
      ((subsOf s e).map (fun c => EmitAction.enqueue c (marshalWsMessage "" e p))
        ++ [EmitAction.lockRRelease])).getLast? = some EmitAction.lockRRelease := by
    rw [← List.cons_append, List.getLast?_concat]
  have h3 : ((EmitAction.lockRAcquire ::
      ((subsOf s e).map (fun c => EmitAction.enqueue c (marshalWsMessage "" e p))
        ++ [EmitAction.lockRRelease])).drop 1).dropLast
      = (subsOf s e).map (fun c => EmitAction.enqueue c (marshalWsMessage "" e p)) := by
    rw [List.drop_one, List.tail_cons, List.dropLast_concat]
  rw [h1, h2, h3]
  simp only [Bool.true_and]
  rw [List.all_eq_true]
  intro a ha
  rcases List.mem_map.mp ha with ⟨c, hc, rfl⟩
  rfl

/-! ## The browser-side multiplexer (`frontend/src/bridge/events.ts`)

The module state is `handlers : Map<string, Set<EventHandler>>`,
`pendingSubscriptions : Set<string>` and `messageQueue : string[]`;
handler callbacks are identified by `Nat` tags.  `connect()` installs the
same `socket.onopen` handler on every connection attempt — first connect
and every reconnect alike — so `connectOnOpen` below models the open
transition in both cases:

```ts
socket.onopen = () => {
  reconnectTimer = 1000
  for (const msg of messageQueue.splice(0, messageQueue.length)) {
    socket?.send(msg)
  }
  for (const event of handlers.keys()) {
    pendingSubscriptions.add(event)
  }
  flushSubscriptions()
}

function flushSubscriptions() {
  if (!socket || socket.readyState !== WebSocket.OPEN) return
  for (const event of pendingSubscriptions) {
    pendingSubscriptions.delete(event)
    const hasHandlers = handlers.get(event)?.size
    if (hasHandlers) {
      socket.send(JSON.stringify({ action: 'subscribe', event }))
    }
  }
}
```

`flushSubscriptions` returns the event names for which a `subscribe`
frame is sent, in iteration order. -/

structure MuxState where
  handlers : List (String × List Nat)
  pending : List String
  messageQueue : List String

/-- `pendingSubscriptions.add` for each key (JS `Set.add`: no duplicate). -/
def muxAddPending (pending : List String) (ks : List String) : List String :=
  ks.foldl (fun p k => if k ∈ p then p else p ++ [k]) pending

def flushSubscriptions (socketOpen : Bool) (st : MuxState) : MuxState × List String :=
  if socketOpen = false then (st, [])
  else
    ({ st with pending := [] },
     st.pending.filter (fun e => !((lookupA st.handlers e).getD []).isEmpty))

/-- The `socket.onopen` handler: reset the backoff, flush the queued
messages, mark every event with a local handler pending, and flush the
subscribe frames (the socket is open inside `onopen`).  Returns the new
state, the flushed queued messages, and the events for which a
`subscribe` frame was sent. -/
def connectOnOpen (st : MuxState) : MuxState × List String × List String :=
  let queued := st.messageQueue
  let pend := muxAddPending st.pending (st.handlers.map Prod.fst)
  let st1 : MuxState := { handlers := st.handlers, pending := pend, messageQueue := [] }
  let flushed := flushSubscriptions true st1
  (flushed.1, queued, flushed.2)

theorem mem_muxAddPending_of_mem_left {pending : List String} {ks : List String}
    {x : String} (h : x ∈ pending) : x ∈ muxAddPending pending ks := by
  induction ks generalizing pending with
  | nil => exact h
  | cons k rest ih =>
    show x ∈ muxAddPending (if k ∈ pending then pending else pending ++ [k]) rest
    refine ih ?_
    split
    · exact h
    · exact List.mem_append_left _ h

theorem mem_muxAddPending_of_mem_keys {pending : List String} {ks : List String}
    {x : String} (h : x ∈ ks) : x ∈ muxAddPending pending ks := by
  induction ks generalizing pending with
  | nil => cases h
  | cons k rest ih =>
    show x ∈ muxAddPending (if k ∈ pending then pending else pending ++ [k]) rest
    rcases List.mem_cons.mp h with h1 | h2
    · subst h1
      refine mem_muxAddPending_of_mem_left ?_
      split
      · assumption
      · exact List.mem_append_right _ (by simp)
    · exact ih h2

/-- C8: on every websocket open transition — first connection and every
reconnection alike — the multiplexer sends a `subscribe` frame exactly
for the event names that currently have at least one locally registered
handler: an event with a nonempty handler set is among the frames sent,
and an event whose handler set is empty or absent is not. -/
theorem onopen_resubscribes_handled_events (st : MuxState) (e : String) :
    e ∈ (connectOnOpen st).2.2 ↔ (lookupA st.handlers e).getD [] ≠ [] := by
  show e ∈ (muxAddPending st.pending (st.handlers.map Prod.fst)).filter
      (fun e' => !((lookupA st.handlers e').getD []).isEmpty) ↔ _
  constructor
  · intro h
    have hpred := (List.mem_filter.mp h).2
    simp only [Bool.not_eq_true'] at hpred
    intro hemp
    rw [hemp] at hpred
    cases hpred
  · intro hne
    refine List.mem_filter.mpr ⟨?_, ?_⟩
    · cases hl : lookupA st.handlers e with
      | none =>
        exfalso
        rw [hl] at hne
        exact hne rfl
      | some l =>
        exact mem_muxAddPending_of_mem_keys (mem_keys_of_lookupA hl)
    · simp only [Bool.not_eq_true']
      cases hl : (lookupA st.handlers e).getD [] with
      | nil => exact absurd hl hne
      | cons y ys => rfl

end GuiForSingBox
